import Mathlib

/-!
Verification of the MZ-Malloc allocator (src/mm.c).

The C source is shallowly embedded: memory is modelled as a map from byte
addresses to 32-bit cells (the allocator only ever performs 4-byte aligned
4-byte accesses on its 32-bit target, so one cell per accessed address is
faithful), and each C function becomes a Lean function threading an explicit
allocator state.  Machine integers are Nat with an explicit `% 2^32` applied
at every store, mirroring the 32-bit `unsigned int` stores of the source.
-/

namespace MM

/-- 32-bit modulus: stores truncate to `unsigned int`. -/
def M32 : Nat := 4294967296

/-- WSIZE from mm.c: word size (4 bytes). -/
def WSIZE : Nat := 4

/-- DSIZE from mm.c: double word size (8 bytes). -/
def DSIZE : Nat := 8

/-- PTR_SIZE from mm.c: sizeof(void*) on the 32-bit target. -/
def PTR_SIZE : Nat := 4

/-- LIST_OVERHEAD from mm.c: 2 * PTR_SIZE. -/
def LIST_OVERHEAD : Nat := 8

/-- CHUNK_SIZE from mm.c: 1 << 12. -/
def CHUNK_SIZE : Nat := 4096

/-- Word-cell memory: byte address to 32-bit value.  Every access performed by
mm.c on its 32-bit target is a 4-byte aligned `unsigned int` access, so a cell
per accessed base address is a faithful model. -/
def Mem : Type := Nat → Nat

/-- GET(p) from mm.c: read the 32-bit word at address p. -/
def GET (m : Mem) (p : Nat) : Nat := m p

/-- PUT(p, val) from mm.c: store a 32-bit word (truncating) at address p. -/
def PUT (m : Mem) (p v : Nat) : Mem := fun q => if q = p then v % M32 else m q

/-- PACK(size, alloc) from mm.c is `size | alloc`.  The allocator only ever
packs sizes that are multiples of 8 with alloc bits 0 or 1 (GET_SIZE always
returns a multiple of 8), for which bitwise-or coincides with addition; the
arithmetic form is used as it is definitionally convenient. -/
def PACK (size alloc : Nat) : Nat := size + alloc

/-- GET_SIZE(p) from mm.c is `GET(p) & ~0x7`; for 32-bit values this equals
clearing the low three bits, i.e. `v - v % 8`. -/
def GET_SIZE (m : Mem) (p : Nat) : Nat := GET m p - GET m p % 8

/-- GET_ALLOC(p) from mm.c is `GET(p) & 0x1`, i.e. `v % 2`. -/
def GET_ALLOC (m : Mem) (p : Nat) : Nat := GET m p % 2

/-- HDRP(bp) from mm.c: the header is 4 bytes before the payload. -/
def HDRP (bp : Nat) : Nat := bp - WSIZE

/-- FTRP(bp) from mm.c: `bp + GET_SIZE(HDRP(bp)) - DSIZE`. -/
def FTRP (m : Mem) (bp : Nat) : Nat := bp + GET_SIZE m (HDRP bp) - DSIZE

/-- NEXT_BLKP(bp) from mm.c: `bp + GET_SIZE(bp - WSIZE)`. -/
def NEXT_BLKP (m : Mem) (bp : Nat) : Nat := bp + GET_SIZE m (bp - WSIZE)

/-- PREV_BLKP(bp) from mm.c: `bp - GET_SIZE(bp - DSIZE)`. -/
def PREV_BLKP (m : Mem) (bp : Nat) : Nat := bp - GET_SIZE m (bp - DSIZE)

/-- GET_NEXT(bp) from mm.c: the next-link stored in a free block's payload. -/
def GET_NEXT (m : Mem) (bp : Nat) : Nat := GET m bp

/-- GET_PREV(bp) from mm.c: the prev-link stored 4 bytes into the payload. -/
def GET_PREV (m : Mem) (bp : Nat) : Nat := GET m (bp + PTR_SIZE)

/-- PUT_NEXT(bp1, bp2) from mm.c. -/
def PUT_NEXT (m : Mem) (bp1 bp2 : Nat) : Mem := PUT m bp1 bp2

/-- PUT_PREV(bp1, bp2) from mm.c. -/
def PUT_PREV (m : Mem) (bp1 bp2 : Nat) : Mem := PUT m (bp1 + PTR_SIZE) bp2

/-- PUT_HDR_FTR(bp, size, alloc) from mm.c: writes the header, then the footer
at FTRP(bp) computed from the freshly written header (macro expansion order). -/
def PUT_HDR_FTR (m : Mem) (bp size alloc : Nat) : Mem :=
  let m1 := PUT m (HDRP bp) (PACK size alloc)
  PUT m1 (FTRP m1 bp) (PACK size alloc)

/-- The allocator's global state: the managed memory plus the static globals
of mm.c (`heap_lo`, `bin_hi`, `block_lo`, `largest_free`) and the memlib
region primitive's state (`brk` = current top, `cap` = growth limit). -/
structure AState where
  mem : Mem
  heap_lo : Nat
  bin_hi : Nat
  block_lo : Nat
  largest_free : Nat
  brk : Nat
  cap : Nat

/-- mem_sbrk from memlib: grow the region, returning the old top, or fail. -/
def mem_sbrk (st : AState) (n : Nat) : Option (Nat × AState) :=
  if st.brk + n ≤ st.cap then some (st.brk, { st with brk := st.brk + n }) else none

/-- find_bin_for_size from mm.c: the branching ladder mapping a block size to
the address of its bin head. -/
def find_bin_for_size (heap_lo size : Nat) : Nat :=
  if size ≤ 128 then heap_lo
  else if size ≤ 256 then heap_lo + WSIZE
  else if size ≤ 512 then heap_lo + 2 * WSIZE
  else if size ≤ 1024 then heap_lo + 3 * WSIZE
  else if size ≤ 2048 then heap_lo + 4 * WSIZE
  else if size ≤ 4096 then heap_lo + 5 * WSIZE
  else if size ≤ 8192 then heap_lo + 6 * WSIZE
  else heap_lo + 7 * WSIZE

/-- prepend_block from mm.c: push a free block on the head of its bin's list
and bump the `largest_free` hint. -/
def prepend_block (st : AState) (bp size : Nat) : AState :=
  let bin := find_bin_for_size st.heap_lo size
  let bin_first := GET st.mem bin
  let m :=
    if bin_first = 0 then
      let m1 := PUT st.mem bin bp
      let m2 := PUT_PREV m1 bp 0
      PUT_NEXT m2 bp 0
    else
      let m1 := PUT_PREV st.mem bp 0
      let m2 := PUT_PREV m1 bin_first bp
      let m3 := PUT_NEXT m2 bp bin_first
      PUT m3 bin bp
  let lf := if size > st.largest_free then size else st.largest_free
  { st with mem := m, largest_free := lf }

/-- remove_block from mm.c: unlink a free block from its bin's list (four
cases on null prev/next links) and lazily reset `largest_free`. -/
def remove_block (st : AState) (bp size : Nat) : AState :=
  let m := st.mem
  let prev_bp := GET_PREV m bp
  let next_bp := GET_NEXT m bp
  let m' :=
    if prev_bp = 0 ∧ next_bp = 0 then
      let bin := find_bin_for_size st.heap_lo (GET_SIZE m (HDRP bp))
      PUT m bin 0
    else if prev_bp = 0 then
      let bin := find_bin_for_size st.heap_lo (GET_SIZE m (HDRP bp))
      let m1 := PUT m bin next_bp
      PUT_PREV m1 next_bp 0
    else if next_bp = 0 then
      PUT_NEXT m prev_bp 0
    else
      let m1 := PUT_NEXT m prev_bp next_bp
      PUT_PREV m1 next_bp prev_bp
  let lf := if size ≥ st.largest_free then 0 else st.largest_free
  { st with mem := m', largest_free := lf }

/-- coalesce from mm.c: merge a free block with free neighbors and insert the
result into the free index.  Returns the resulting block pointer and state. -/
def coalesce (st : AState) (bp : Nat) : Nat × AState :=
  let m := st.mem
  let prev_alloc := GET_ALLOC m (FTRP m (PREV_BLKP m bp))
  let next_alloc := GET_ALLOC m (HDRP (NEXT_BLKP m bp))
  let size := GET_SIZE m (HDRP bp)
  let prev_size := GET_SIZE m (HDRP (PREV_BLKP m bp))
  let next_size := GET_SIZE m (HDRP (NEXT_BLKP m bp))
  if prev_alloc ≠ 0 ∧ next_alloc ≠ 0 then
    (bp, prepend_block st bp size)
  else if prev_alloc ≠ 0 ∧ next_alloc = 0 then
    let size1 := size + next_size
    let st1 := remove_block st (NEXT_BLKP m bp) next_size
    let st2 := prepend_block st1 bp size1
    (bp, { st2 with mem := PUT_HDR_FTR st2.mem bp size1 0 })
  else if prev_alloc = 0 ∧ next_alloc ≠ 0 then
    let st1 := remove_block st (PREV_BLKP m bp) prev_size
    let size1 := size + prev_size
    let m1 := PUT st1.mem (FTRP st1.mem bp) (PACK size1 0)
    let m2 := PUT m1 (HDRP (PREV_BLKP m1 bp)) (PACK size1 0)
    let bp1 := PREV_BLKP m2 bp
    (bp1, prepend_block { st1 with mem := m2 } bp1 size1)
  else
    let st1 := remove_block st (PREV_BLKP m bp) prev_size
    let st2 := remove_block st1 (NEXT_BLKP st1.mem bp) next_size
    let size1 := size + prev_size + next_size
    let m1 := PUT st2.mem (HDRP (PREV_BLKP st2.mem bp)) (PACK size1 0)
    let m2 := PUT m1 (FTRP m1 (NEXT_BLKP m1 bp)) (PACK size1 0)
    let bp1 := PREV_BLKP m2 bp
    (bp1, prepend_block { st2 with mem := m2 } bp1 size1)

/-- extend_heap from mm.c: grow the region by an even number of words, lay a
free block over the new bytes, rewrite the epilogue, and coalesce. -/
def extend_heap (st : AState) (words : Nat) : Option (Nat × AState) :=
  let size := if words % 2 = 1 then (words + 1) * WSIZE else words * WSIZE
  match mem_sbrk st size with
  | none => none
  | some (bp, st1) =>
    let m1 := PUT_HDR_FTR st1.mem bp size 0
    let m2 := PUT m1 (HDRP (NEXT_BLKP m1 bp)) (PACK 0 1)
    some (coalesce { st1 with mem := m2 } bp)

/-- The inner loop of find_fit: walk one bin's list via next-links, returning
the first block whose size is at least the request.  `fuel` bounds the walk
(the C loop's termination rests on list well-formedness). -/
def scanList (m : Mem) (size : Nat) : Nat → Nat → Option Nat
  | 0, _ => none
  | fuel + 1, bp =>
    if bp = 0 then none
    else if size ≤ GET_SIZE m (HDRP bp) then some bp
    else scanList m size fuel (GET_NEXT m bp)

/-- The outer loop of find_fit: step the bin cursor by WSIZE while it does not
pass bin_hi, scanning each bin's list.  `count` is the structural bound on the
number of bins (at most 8 once mm_init has run, since the cursor starts at
`find_bin_for_size` ≥ heap_lo and `bin_hi = heap_lo + 28`). -/
def scanBins (m : Mem) (fuel size : Nat) : Nat → Nat → Nat → Option Nat
  | 0, _, _ => none
  | count + 1, bin, bin_hi =>
    if bin ≤ bin_hi then
      match scanList m size fuel (GET m bin) with
      | some bp => some bp
      | none => scanBins m fuel size count (bin + WSIZE) bin_hi
    else none

/-- find_fit from mm.c: the largest_free short-circuit followed by the
class-indexed first-fit scan. -/
def find_fit (st : AState) (fuel size : Nat) : Option Nat :=
  if st.largest_free ≠ 0 ∧ size > st.largest_free then none
  else scanBins st.mem fuel size 8 (find_bin_for_size st.heap_lo size) st.bin_hi

/-- place from mm.c: carve an allocated block of `size` bytes out of the free
block `bp`, splitting off the leftover when it can hold a minimal block. -/
def place (st : AState) (bp size : Nat) : AState :=
  let curr_size := GET_SIZE st.mem (HDRP bp)
  let leftover := curr_size - size
  let st1 := remove_block st bp curr_size
  if LIST_OVERHEAD + DSIZE ≤ leftover then
    let m1 := PUT_HDR_FTR st1.mem bp size 1
    let m2 := PUT_HDR_FTR m1 (NEXT_BLKP m1 bp) leftover 0
    prepend_block { st1 with mem := m2 } (NEXT_BLKP m2 bp) leftover
  else
    { st1 with mem := PUT_HDR_FTR st1.mem bp curr_size 1 }

/-- The adjusted-size computation of mm_malloc, including the two hard-coded
overrides for request sizes 112 and 448.  The division rounds up in 32-bit
`size_t` arithmetic. -/
def adjMalloc (size : Nat) : Nat :=
  if size = 112 then 136
  else if size = 448 then 520
  else if size ≤ LIST_OVERHEAD then LIST_OVERHEAD + DSIZE
  else DSIZE * ((size + DSIZE + (DSIZE - 1)) % M32 / DSIZE)

/-- mm_malloc from mm.c.  Returns the block pointer (none for NULL) and the
resulting state. -/
def mm_malloc (st : AState) (fuel size : Nat) : Option Nat × AState :=
  if size = 0 then (none, st)
  else
    let adj_size := adjMalloc size
    match find_fit st fuel adj_size with
    | some bp => (some bp, place st bp adj_size)
    | none =>
      let extend_size := max adj_size CHUNK_SIZE
      match extend_heap st (extend_size / WSIZE) with
      | none => (none, st)
      | some (bp, st1) => (some bp, place st1 bp adj_size)

/-- mm_free from mm.c: no-op on an already-free block, else write free tags
and coalesce. -/
def mm_free (st : AState) (bp : Nat) : AState :=
  if GET_ALLOC st.mem (HDRP bp) = 0 then st
  else
    let size := GET_SIZE st.mem (HDRP bp)
    let m := PUT_HDR_FTR st.mem bp size 0
    (coalesce { st with mem := m } bp).2

/-- The adjusted-size computation of mm_realloc (no hard-coded overrides). -/
def adjRealloc (size : Nat) : Nat :=
  if size ≤ LIST_OVERHEAD then LIST_OVERHEAD + DSIZE
  else DSIZE * ((size + DSIZE + (DSIZE - 1)) % M32 / DSIZE)

/-- memmove / memcpy over word cells: the destination range takes the source
bytes, computed from the pre-call memory (C memmove semantics; the single
memcpy call site copies between disjoint blocks, where this coincides). -/
def memmove (m : Mem) (dst src n : Nat) : Mem :=
  fun q => if dst ≤ q ∧ q < dst + n then m (src + (q - dst)) else m q

/-- mm_realloc from mm.c: in-place when not growing, absorb a free neighbor
when possible, otherwise relocate via find_fit / extend_heap and copy. -/
def mm_realloc (st : AState) (fuel bp size : Nat) : Option Nat × AState :=
  let old_size := GET_SIZE st.mem (HDRP bp)
  if bp = 0 then mm_malloc st fuel size
  else if size = 0 then (none, mm_free st bp)
  else
    let adj_size := adjRealloc size
    if adj_size = old_size then (some bp, st)
    else if adj_size < old_size then (some bp, st)
    else
      let m := st.mem
      let prev_alloc := GET_ALLOC m (HDRP (PREV_BLKP m bp))
      let next_alloc := GET_ALLOC m (HDRP (NEXT_BLKP m bp))
      let next_size := GET_SIZE m (HDRP (NEXT_BLKP m bp))
      let prev_size := GET_SIZE m (HDRP (PREV_BLKP m bp))
      if next_alloc = 0 ∧ prev_alloc ≠ 0 ∧ adj_size ≤ old_size + next_size then
        let st1 := remove_block st (NEXT_BLKP m bp) next_size
        let coalesce_size := old_size + GET_SIZE st1.mem (HDRP (NEXT_BLKP st1.mem bp))
        (some bp, { st1 with mem := PUT_HDR_FTR st1.mem bp coalesce_size 1 })
      else if next_alloc ≠ 0 ∧ prev_alloc = 0 ∧ adj_size ≤ old_size + prev_size then
        let st1 := remove_block st (PREV_BLKP m bp) prev_size
        let new_bp := PREV_BLKP st1.mem bp
        let coalesce_size := old_size + GET_SIZE st1.mem (HDRP (PREV_BLKP st1.mem bp))
        let m1 := PUT_HDR_FTR st1.mem new_bp coalesce_size 1
        let m2 := memmove m1 new_bp bp old_size
        (some new_bp, { st1 with mem := m2 })
      else if next_alloc = 0 ∧ prev_alloc = 0 ∧
          adj_size ≤ old_size + prev_size + next_size then
        let st1 := remove_block st (PREV_BLKP m bp) prev_size
        let st2 := remove_block st1 (NEXT_BLKP st1.mem bp) next_size
        let new_bp := PREV_BLKP st2.mem bp
        let coalesce_size := old_size + prev_size + next_size
        let m1 := PUT_HDR_FTR st2.mem new_bp coalesce_size 1
        let m2 := memmove m1 new_bp bp old_size
        (some new_bp, { st2 with mem := m2 })
      else
        let fitRes :=
          match find_fit st fuel adj_size with
          | some nb => some (nb, st)
          | none => extend_heap st ((adj_size + 1024) / WSIZE)
        match fitRes with
        | none => (none, st)
        | some (new_bp, stA) =>
          let m1 := PUT_HDR_FTR stA.mem new_bp (GET_SIZE stA.mem (HDRP new_bp)) 1
          let stB := remove_block { stA with mem := m1 } new_bp (GET_SIZE m1 (HDRP new_bp))
          let m2 := PUT_HDR_FTR stB.mem bp old_size 0
          let m3 := memmove m2 new_bp bp (old_size - DSIZE)
          let stC := (coalesce { stB with mem := m3 } bp).2
          (some new_bp, stC)

/-- Zero the first `k` pointer-sized words starting at `base` (the
initialization loop of mm_init). -/
def zeroWords (m : Mem) (base : Nat) : Nat → Mem
  | 0 => m
  | k + 1 => PUT (zeroWords m base k) (base + k * PTR_SIZE) 0

/-- mm_init from mm.c: claim 48 bytes, zero the 9 low words (8 bin heads plus
padding), set the global anchors, and write the prologue and epilogue tags. -/
def mm_init (st : AState) : Option AState :=
  match mem_sbrk st (12 * PTR_SIZE) with
  | none => none
  | some (hl, st1) =>
    let m0 := zeroWords st1.mem hl 9
    let bin_hi := hl + 7 * PTR_SIZE
    let block_lo := hl + 10 * PTR_SIZE
    let m1 := PUT_HDR_FTR m0 block_lo DSIZE 1
    let m2 := PUT m1 (HDRP (NEXT_BLKP m1 block_lo)) (PACK 0 1)
    some { st1 with mem := m2, heap_lo := hl, bin_hi := bin_hi, block_lo := block_lo }

/-- A fresh pre-init state: zeroed memory, region base 8, growth capacity cap. -/
def mkInitial (cap : Nat) : AState :=
  { mem := fun _ => 0, heap_lo := 0, bin_hi := 0, block_lo := 0,
    largest_free := 0, brk := 8, cap := cap }

/-! ## Basic lemmas about the memory primitives -/

theorem GET_PUT_self (m : Mem) (p v : Nat) : GET (PUT m p v) p = v % M32 := by
  simp [GET, PUT]

theorem GET_PUT_other (m : Mem) (p v q : Nat) (h : q ≠ p) :
    GET (PUT m p v) q = GET m q := by
  simp [GET, PUT, h]

/-! ## Claim C9: a zero-size acquire returns null and mutates nothing -/

/-- C9: `acquire(0)` returns null and leaves the entire allocator state
(managed region contents, bin heads, global anchors, largest_free) unchanged:
`mm_malloc` returns `(none, st)` with the input state `st` untouched. -/
theorem C9_malloc_zero (st : AState) (fuel : Nat) : mm_malloc st fuel 0 = (none, st) := by
  simp [mm_malloc]

/-! ## Claim C1: the bin-selection size classes -/

/-- Modelled from the spec: the bin index prescribed by the claim, namely the
smallest class whose upper bound is at least the size, over a given list of
ascending upper bounds; sizes beyond every bound fall in the last (unbounded)
class, whose index is the length of the bound list. -/
def specBinIndex (bounds : List Nat) (s : Nat) : Nat :=
  List.findIdx (fun b => decide (s ≤ b)) bounds

/-- Modelled from the spec: the claimed canonical upper bounds
32, 64, 128, 256, 512, 1024, 2048 (with an unbounded top class). -/
def claimBounds : List Nat := [32, 64, 128, 256, 512, 1024, 2048]

/-- Modelled from the spec: the head address the claim says
`bin_for_size(s)` returns (heads are `WSIZE` apart starting at `heap_lo`). -/
def claimBinForSize (heap_lo s : Nat) : Nat :=
  heap_lo + WSIZE * specBinIndex claimBounds s

/-- The upper bounds the code actually uses in `find_bin_for_size`:
128, 256, 512, 1024, 2048, 4096, 8192 (with an unbounded top class). -/
def codeBounds : List Nat := [128, 256, 512, 1024, 2048, 4096, 8192]

/-- C1 counterexample: for size 33 the claimed canonical classes place the
block in the second class (head at `heap_lo + WSIZE`), but the code's
`find_bin_for_size` returns the first head (its first class is `≤ 128`). -/
theorem C1_counterexample :
    find_bin_for_size 0 33 = 0 ∧ claimBinForSize 0 33 = WSIZE ∧
      find_bin_for_size 0 33 ≠ claimBinForSize 0 33 := by
  refine ⟨by decide, by decide, by decide⟩

/-- The code's bin ladder agrees with smallest-class selection over the
code's bounds list (shared helper). -/
theorem find_bin_index_eq (hl s : Nat) :
    find_bin_for_size hl s = hl + WSIZE * specBinIndex codeBounds s := by
  unfold find_bin_for_size specBinIndex codeBounds
  by_cases h1 : s ≤ 128
  · simp [List.findIdx_cons, h1]
  by_cases h2 : s ≤ 256
  · simp [List.findIdx_cons, h1, h2]
  by_cases h3 : s ≤ 512
  · simp [List.findIdx_cons, h1, h2, h3, Nat.mul_comm]
  by_cases h4 : s ≤ 1024
  · simp [List.findIdx_cons, h1, h2, h3, h4, Nat.mul_comm]
  by_cases h5 : s ≤ 2048
  · simp [List.findIdx_cons, h1, h2, h3, h4, h5, Nat.mul_comm]
  by_cases h6 : s ≤ 4096
  · simp [List.findIdx_cons, h1, h2, h3, h4, h5, h6, Nat.mul_comm]
  by_cases h7 : s ≤ 8192
  · simp [List.findIdx_cons, h1, h2, h3, h4, h5, h6, h7, Nat.mul_comm]
  · simp [List.findIdx_cons, h1, h2, h3, h4, h5, h6, h7, Nat.mul_comm]

/-- C1 amended: `find_bin_for_size` maps every size to the head of the
smallest class containing it, but over the code's eight classes with upper
bounds 128, 256, 512, 1024, 2048, 4096, 8192 and an unbounded top class. -/
theorem C1_amended (hl s : Nat) :
    find_bin_for_size hl s = hl + WSIZE * specBinIndex codeBounds s :=
  find_bin_index_eq hl s

/-! ## Claim C3: the adjusted-size computation of acquire -/

/-- Modelled from the spec: `round_up_to_8`. -/
def roundUp8 (n : Nat) : Nat := (n + 7) / 8 * 8

/-- Modelled from the spec: the minimum block size on the 32-bit target,
header (4) + two link words (8) + footer (4) rounded to alignment = 16. -/
def minBlockSize : Nat := 16

/-- Modelled from the spec: the claimed adjusted size,
`max(minimum_block_size, round_up_to_8(requested_bytes + 8))`. -/
def claimAdjusted (s : Nat) : Nat := max minBlockSize (roundUp8 (s + 8))

/-- C3 counterexample: at requested size 112 the code's hard-coded override
yields an adjusted size of 136, not the claimed
`max(16, round_up_to_8(112+8)) = 120` (likewise 448 maps to 520, not 464). -/
theorem C3_counterexample :
    adjMalloc 112 = 136 ∧ claimAdjusted 112 = 120 ∧ adjMalloc 112 ≠ claimAdjusted 112 := by
  refine ⟨by decide, by decide, by decide⟩

/-- C3 amended: except for the two hard-coded overrides (112 maps to 136 and
448 maps to 520), `acquire` computes its adjusted block size exactly as
`max(minimum_block_size, round_up_to_8(requested_bytes + 8))` with minimum
block size 16, for every positive request small enough not to wrap the
32-bit size arithmetic. -/
theorem C3_amended (s : Nat) (hpos : 0 < s) (h112 : s ≠ 112) (h448 : s ≠ 448)
    (hw : s + 15 < M32) :
    adjMalloc s = claimAdjusted s := by
  unfold adjMalloc claimAdjusted roundUp8 minBlockSize LIST_OVERHEAD DSIZE
  rw [if_neg h112, if_neg h448, Nat.mod_eq_of_lt (by omega)]
  by_cases h8 : s ≤ 8
  · rw [if_pos h8]; omega
  · rw [if_neg h8]; omega

/-- C3 witness: the amended formula evaluated at the concrete request 100. -/
theorem C3_witness : adjMalloc 100 = claimAdjusted 100 :=
  C3_amended 100 (by decide) (by decide) (by decide) (by decide)

/-! ## Write-set characterizations

For the frame reasoning below we characterize exactly which cells each
list operation writes. -/

/-- The addresses written by `remove_block` (mirrors its four branches). -/
def removeWriteCells (st : AState) (bp : Nat) : List Nat :=
  let m := st.mem
  let prev_bp := GET_PREV m bp
  let next_bp := GET_NEXT m bp
  if prev_bp = 0 ∧ next_bp = 0 then
    [find_bin_for_size st.heap_lo (GET_SIZE m (HDRP bp))]
  else if prev_bp = 0 then
    [find_bin_for_size st.heap_lo (GET_SIZE m (HDRP bp)), next_bp + PTR_SIZE]
  else if next_bp = 0 then
    [prev_bp]
  else
    [prev_bp, next_bp + PTR_SIZE]

/-- `remove_block` leaves every cell outside its write set unchanged. -/
theorem remove_block_frame (st : AState) (bp size q : Nat)
    (h : q ∉ removeWriteCells st bp) :
    (remove_block st bp size).mem q = st.mem q := by
  unfold remove_block removeWriteCells at *
  by_cases h1 : GET_PREV st.mem bp = 0 ∧ GET_NEXT st.mem bp = 0
  · simp only [if_pos h1] at h ⊢
    simp only [List.mem_singleton] at h
    simp [PUT, h]
  · by_cases h2 : GET_PREV st.mem bp = 0
    · simp only [if_neg h1, if_pos h2] at h ⊢
      simp only [List.mem_cons, List.mem_singleton] at h
      push_neg at h
      simp [PUT, PUT_PREV, h.1, h.2]
    · by_cases h3 : GET_NEXT st.mem bp = 0
      · simp only [if_neg h1, if_neg h2, if_pos h3] at h ⊢
        simp only [List.mem_singleton] at h
        simp [PUT, PUT_NEXT, h]
      · simp only [if_neg h1, if_neg h2, if_neg h3] at h ⊢
        simp only [List.mem_cons, List.mem_singleton] at h
        push_neg at h
        simp [PUT, PUT_NEXT, PUT_PREV, h.1, h.2]

/-- The addresses written by `prepend_block` (mirrors its two branches). -/
def prependWriteCells (st : AState) (bp size : Nat) : List Nat :=
  let bin := find_bin_for_size st.heap_lo size
  let bin_first := GET st.mem bin
  if bin_first = 0 then [bin, bp + PTR_SIZE, bp]
  else [bp + PTR_SIZE, bin_first + PTR_SIZE, bp, bin]

/-- `prepend_block` leaves every cell outside its write set unchanged. -/
theorem prepend_block_frame (st : AState) (bp size q : Nat)
    (h : q ∉ prependWriteCells st bp size) :
    (prepend_block st bp size).mem q = st.mem q := by
  unfold prepend_block prependWriteCells at *
  by_cases h1 : GET st.mem (find_bin_for_size st.heap_lo size) = 0
  · simp only [if_pos h1] at h ⊢
    simp only [List.mem_cons, List.mem_singleton] at h
    push_neg at h
    simp [PUT, PUT_PREV, PUT_NEXT, h.1, h.2.1, h.2.2]
  · simp only [if_neg h1] at h ⊢
    simp only [List.mem_cons, List.mem_singleton] at h
    push_neg at h
    simp [PUT, PUT_PREV, PUT_NEXT, h.1, h.2.1, h.2.2.1, h.2.2.2]

/-- `GET_SIZE` always yields a multiple of 8 (the low bits are masked off). -/
theorem GET_SIZE_dvd (m : Mem) (p : Nat) : 8 ∣ GET_SIZE m p := by
  unfold GET_SIZE; omega

/-- `GET_SIZE` depends only on the cell it reads. -/
theorem GET_SIZE_congr {m1 m2 : Mem} (p : Nat) (h : m1 p = m2 p) :
    GET_SIZE m1 p = GET_SIZE m2 p := by
  unfold GET_SIZE GET; rw [h]

/-- `GET_ALLOC` depends only on the cell it reads. -/
theorem GET_ALLOC_congr {m1 m2 : Mem} (p : Nat) (h : m1 p = m2 p) :
    GET_ALLOC m1 p = GET_ALLOC m2 p := by
  unfold GET_ALLOC GET; rw [h]

/-- `NEXT_BLKP` depends only on the header cell. -/
theorem NEXT_BLKP_congr {m1 m2 : Mem} (bp : Nat) (h : m1 (HDRP bp) = m2 (HDRP bp)) :
    NEXT_BLKP m1 bp = NEXT_BLKP m2 bp :=
  congrArg (bp + ·) (GET_SIZE_congr (bp - WSIZE) h)

/-- `PREV_BLKP` depends only on the cell 8 bytes below the payload. -/
theorem PREV_BLKP_congr {m1 m2 : Mem} (bp : Nat) (h : m1 (bp - DSIZE) = m2 (bp - DSIZE)) :
    PREV_BLKP m1 bp = PREV_BLKP m2 bp :=
  congrArg (bp - ·) (GET_SIZE_congr (bp - DSIZE) h)

/-- Reading back the header written by `PUT_HDR_FTR` (for a genuine block:
size a multiple of 8, at least 16, payload past the prefix area). -/
theorem PUT_HDR_FTR_header (m : Mem) (bp s a : Nat) (hs : 8 ∣ s) (h16 : 16 ≤ s)
    (hbp8 : 8 ≤ bp) (ha : a ≤ 1) (hlt : s + a < M32) :
    PUT_HDR_FTR m bp s a (HDRP bp) = s + a := by
  have hmod : (s + a) % M32 = s + a := Nat.mod_eq_of_lt hlt
  simp only [PUT_HDR_FTR, PUT, PACK, FTRP, GET_SIZE, GET, HDRP, WSIZE, DSIZE, hmod]
  split_ifs <;> omega

/-- Reading back the footer written by `PUT_HDR_FTR`. -/
theorem PUT_HDR_FTR_footer (m : Mem) (bp s a : Nat) (hs : 8 ∣ s) (h16 : 16 ≤ s)
    (hbp8 : 8 ≤ bp) (ha : a ≤ 1) (hlt : s + a < M32) :
    PUT_HDR_FTR m bp s a (bp + s - DSIZE) = s + a := by
  have hmod : (s + a) % M32 = s + a := Nat.mod_eq_of_lt hlt
  simp only [PUT_HDR_FTR, PUT, PACK, FTRP, GET_SIZE, GET, HDRP, WSIZE, DSIZE, hmod]
  split_ifs <;> omega

/-- `PUT_HDR_FTR` writes only the header and footer cells. -/
theorem PUT_HDR_FTR_frame (m : Mem) (bp s a q : Nat) (hs : 8 ∣ s)
    (ha : a ≤ 1) (hlt : s + a < M32)
    (hq1 : q ≠ HDRP bp) (hq2 : q ≠ bp + s - DSIZE) :
    PUT_HDR_FTR m bp s a q = m q := by
  have hmod : (s + a) % M32 = s + a := Nat.mod_eq_of_lt hlt
  unfold HDRP WSIZE at hq1
  unfold DSIZE at hq2
  simp only [PUT_HDR_FTR, PUT, PACK, FTRP, GET_SIZE, GET, HDRP, WSIZE, DSIZE, hmod]
  split_ifs <;> omega

/-- `GET_SIZE` at the header after `PUT_HDR_FTR` recovers the size. -/
theorem GET_SIZE_PUT_HDR_FTR (m : Mem) (bp s a : Nat) (hs : 8 ∣ s) (h16 : 16 ≤ s)
    (hbp8 : 8 ≤ bp) (ha : a ≤ 1) (hlt : s + a < M32) :
    GET_SIZE (PUT_HDR_FTR m bp s a) (HDRP bp) = s := by
  unfold GET_SIZE GET
  rw [PUT_HDR_FTR_header m bp s a hs h16 hbp8 ha hlt]
  omega

/-- `GET_ALLOC` at the header after `PUT_HDR_FTR` recovers the alloc bit. -/
theorem GET_ALLOC_PUT_HDR_FTR (m : Mem) (bp s a : Nat) (hs : 8 ∣ s) (h16 : 16 ≤ s)
    (hbp8 : 8 ≤ bp) (ha : a ≤ 1) (hlt : s + a < M32) :
    GET_ALLOC (PUT_HDR_FTR m bp s a) (HDRP bp) = a := by
  unfold GET_ALLOC GET
  rw [PUT_HDR_FTR_header m bp s a hs h16 hbp8 ha hlt]
  omega

/-! ## Claim C2: the shrink path of resize -/

/-- Concrete scenario state: a fresh heap after `mm_init`. -/
def stInit : AState := (mm_init (mkInitial 100000)).getD (mkInitial 0)

/-- Concrete scenario state: after `acquire(32)` on the fresh heap, which
returns payload pointer 56 with block size 40, leaving a free remainder of
4056 bytes at 96. -/
def stM32 : AState := (mm_malloc stInit 64 32).2

/-- C2 counterexample: on the concrete heap `stM32`, block 56 is allocated
with block size 40; `resize(56, 8)` has adjusted size 16 < 40, yet afterwards
the block size at 56 is still 40, not the adjusted size — the code performs
no place-style split on the shrink path (it returns `bp` with the state
completely unchanged). -/
theorem C2_counterexample :
    adjRealloc 8 = 16 ∧
      GET_ALLOC stM32.mem (HDRP 56) = 1 ∧
      GET_SIZE stM32.mem (HDRP 56) = 40 ∧
      (mm_realloc stM32 64 56 8).1 = some 56 ∧
      GET_SIZE ((mm_realloc stM32 64 56 8).2).mem (HDRP 56) = 40 := by
  refine ⟨by decide, by decide, by decide, by decide, by decide⟩

/-- C2 amended: when the adjusted request size is strictly smaller than the
block's current size, `resize` performs no split at all: it returns `p`
and leaves the entire allocator state unchanged, so the block keeps its old
size (the excess stays as internal fragmentation). -/
theorem C2_amended (st : AState) (fuel bp n : Nat) (hbp : bp ≠ 0) (hn : n ≠ 0)
    (h : adjRealloc n < GET_SIZE st.mem (HDRP bp)) :
    mm_realloc st fuel bp n = (some bp, st) := by
  unfold mm_realloc
  have h1 : ¬ (adjRealloc n = GET_SIZE st.mem (HDRP bp)) := by omega
  simp [hbp, hn, h1, h]

/-- C2 witness: the amended theorem applied on the concrete heap `stM32`. -/
theorem C2_witness : mm_realloc stM32 64 56 8 = (some 56, stM32) :=
  C2_amended stM32 64 56 8 (by decide) (by decide) (by decide)

/-! ## Claim C4: growth paths of resize never split a tail -/

/-- C4 counterexample: on the concrete heap `stM32`, block 56 (size 40,
allocated) is followed by a free block of size 4056.  `resize(56, 60)` has
adjusted size 72 and takes the absorb-next growth path; the resulting block
has size 4096, which exceeds the adjusted size by 4024 ≥ minimum block size,
yet no tail was split off: the claimed bound `final < adjusted + minimum`
fails. -/
theorem C4_counterexample :
    adjRealloc 60 = 72 ∧
      (mm_realloc stM32 64 56 60).1 = some 56 ∧
      GET_SIZE ((mm_realloc stM32 64 56 60).2).mem (HDRP 56) = 4096 ∧
      ¬ GET_SIZE ((mm_realloc stM32 64 56 60).2).mem (HDRP 56) < 72 + minBlockSize := by
  refine ⟨by decide, by decide, by decide, by decide⟩

/-! ## Claim C7: the largest_free hint as an upper bound -/

/-- The claimed invariant: the hint is 0 (unknown) or an upper bound on the
size of every block currently on a free list (`S` enumerates those blocks). -/
def boundInv (st : AState) (S : List Nat) : Prop :=
  st.largest_free = 0 ∨ ∀ p ∈ S, GET_SIZE st.mem (HDRP p) ≤ st.largest_free

instance (st : AState) (S : List Nat) : Decidable (boundInv st S) := by
  unfold boundInv
  infer_instance

/-- A state reached from `mm_init` by public calls only: acquire 80, 3990,
80, 80 (pointers 56, 144, 4152, 4240), release 144, resize(56, 100) (which
absorbs the freed neighbor and resets `largest_free` to 0), then release
4152 (which prepends an 88-byte block, setting `largest_free := 88` while
the 3920-byte free block at 4328 is still on bin 5). -/
def stC7 : AState :=
  let s1 := (mm_init (mkInitial 1000000)).getD (mkInitial 0)
  let r1 := mm_malloc s1 64 80
  let r2 := mm_malloc r1.2 64 3990
  let r3 := mm_malloc r2.2 64 80
  let r4 := mm_malloc r3.2 64 80
  let s5 := mm_free r4.2 (r2.1.getD 0)
  let r5 := mm_realloc s5 64 (r1.1.getD 0) 100
  mm_free r5.2 (r3.1.getD 0)

/-- C7 counterexample: in the reachable state `stC7` the hint is 88 (not 0),
yet the free block at 4328 — the head of the bin that `find_bin_for_size`
assigns to its size — has size 3920 > 88: the hint underestimates, and it
costs a fit: `find_fit` for a 1000-byte request short-circuits to none even
though the 3920-byte free block would satisfy it. -/
theorem C7_counterexample :
    stC7.largest_free = 88 ∧
      GET stC7.mem (find_bin_for_size stC7.heap_lo 3920) = 4328 ∧
      GET_SIZE stC7.mem (HDRP 4328) = 3920 ∧
      ¬ boundInv stC7 [4328] ∧
      find_fit stC7 64 1000 = none := by
  refine ⟨by decide, by decide, by decide, by decide, by decide⟩

/-- C7 amended: `remove` always preserves the upper-bound property, but
`prepend` preserves it only when `largest_free` is non-zero on entry: when
the hint is 0 ("unknown") and a larger block is already on some list,
prepending a small block sets the hint to the small size, an underestimate
(as the counterexample reaches through public calls).  The frame hypotheses
state that the operation does not overwrite the listed blocks' headers. -/
theorem C7_amended :
    (∀ (st : AState) (S : List Nat) (bp size : Nat),
      (∀ p ∈ S, (remove_block st bp size).mem (HDRP p) = st.mem (HDRP p)) →
      boundInv st S → boundInv (remove_block st bp size) S) ∧
    (∀ (st : AState) (S : List Nat) (bp size : Nat),
      st.largest_free ≠ 0 →
      (∀ p ∈ S, (prepend_block st bp size).mem (HDRP p) = st.mem (HDRP p)) →
      (prepend_block st bp size).mem (HDRP bp) = st.mem (HDRP bp) →
      GET_SIZE st.mem (HDRP bp) = size →
      boundInv st S → boundInv (prepend_block st bp size) (bp :: S)) := by
  constructor
  · intro st S bp size hframe hinv
    by_cases hge : st.largest_free ≤ size
    · left
      simp [remove_block, hge]
    · have hlf : (remove_block st bp size).largest_free = st.largest_free := by
        simp [remove_block, hge]
      right
      intro p hp
      rw [hlf, GET_SIZE_congr (HDRP p) (hframe p hp)]
      rcases hinv with h0 | hbound
      · omega
      · exact hbound p hp
  · intro st S bp size hlfne hframe hfbp hszeq hinv
    have hinvR : ∀ p ∈ S, GET_SIZE st.mem (HDRP p) ≤ st.largest_free := by
      rcases hinv with h0 | hbound
      · exact absurd h0 hlfne
      · exact hbound
    have hlf : (prepend_block st bp size).largest_free =
        if st.largest_free < size then size else st.largest_free := by
      simp [prepend_block]
    right
    intro p hp
    rcases List.mem_cons.mp hp with rfl | hpS
    · rw [GET_SIZE_congr (HDRP p) hfbp, hszeq, hlf]
      split <;> omega
    · rw [GET_SIZE_congr (HDRP p) (hframe p hpS), hlf]
      have := hinvR p hpS
      split <;> omega

/-- A small concrete free-index state for the C7 witness: a block at 20 of
size 24 (header at 16) and a block at 40 of size 16 (header at 36). -/
def stW7 : AState :=
  { mem := fun q => if q = 16 then 24 else if q = 36 then 16 else 0,
    heap_lo := 0, bin_hi := 28, block_lo := 0, largest_free := 24,
    brk := 0, cap := 0 }

/-- C7 witness: both amended preservation statements applied on `stW7`. -/
theorem C7_witness :
    boundInv (remove_block stW7 20 24) [20] ∧
      boundInv (prepend_block stW7 40 16) (40 :: [20]) :=
  ⟨C7_amended.1 stW7 [20] 20 24 (by decide) (by decide),
   C7_amended.2 stW7 [20] 40 16 (by decide) (by decide) (by decide) (by decide)
     (by decide)⟩

/-! ## Claim C8: find_fit refines a first-fit scan over the bins' lists -/

/-- One bin's list, abstracted: `h` is the current head value and `l` the
sequence of node addresses reached by following next-links to null. -/
def chainN (m : Mem) : Nat → List Nat → Bool
  | h, [] => h == 0
  | h, a :: l => h == a && a != 0 && chainN m (GET_NEXT m a) l

/-- The bins' lists, abstracted: `L` lists, one per bin head word. -/
def encBins (m : Mem) (hl : Nat) (L : List (List Nat)) : Prop :=
  L.length = 8 ∧ ∀ i < 8, chainN m (GET m (hl + WSIZE * i)) (L.getD i []) = true

instance (m : Mem) (hl : Nat) (L : List (List Nat)) : Decidable (encBins m hl L) := by
  unfold encBins
  infer_instance

/-- Modelled from the spec: `find_fit(s)` returns null at once when
`largest_free != 0` and `s > largest_free`; otherwise it scans the bins from
`bin_for_size(s)` through the last bin, each list front to back, and returns
the first block whose size is at least `s` (skipping smaller blocks), or null
on exhaustion. -/
def findFitSpec (sz : Nat → Nat) (L : List (List Nat)) (lf s : Nat) : Option Nat :=
  if lf ≠ 0 ∧ lf < s then none
  else ((L.drop (specBinIndex codeBounds s)).flatten).find? (fun a => decide (s ≤ sz a))

theorem find?_append {α : Type} (l1 l2 : List α) (p : α → Bool) :
    (l1 ++ l2).find? p =
      match l1.find? p with
      | some a => some a
      | none => l2.find? p := by
  induction l1 with
  | nil => simp
  | cons a t ih =>
    by_cases h : p a = true
    · simp [List.find?_cons_of_pos, h]
    · simp only [List.cons_append, List.find?_cons_of_neg _ h, ih]

theorem drop_eq_getD_cons {L : List (List Nat)} {n : Nat} (h : n < L.length) :
    L.drop n = L.getD n [] :: L.drop (n + 1) := by
  rw [List.drop_eq_getElem_cons h]
  congr 1
  simp [List.getD_eq_getElem?_getD, List.getElem?_eq_getElem h]

/-- The inner loop of find_fit returns the first adequate block of the
scanned list, given enough fuel. -/
theorem scanList_spec (m : Mem) (s : Nat) (l : List Nat) :
    ∀ (fuel h : Nat), chainN m h l = true → l.length < fuel →
      scanList m s fuel h = l.find? (fun a => decide (s ≤ GET_SIZE m (HDRP a))) := by
  induction l with
  | nil =>
    intro fuel h henc hfuel
    match fuel with
    | fuel + 1 =>
      simp only [chainN, beq_iff_eq] at henc
      simp [scanList, henc]
  | cons a t ih =>
    intro fuel h henc hfuel
    match fuel with
    | fuel + 1 =>
      simp only [chainN, Bool.and_eq_true, beq_iff_eq, bne_iff_ne] at henc
      obtain ⟨⟨heq, hne⟩, hchain⟩ := henc
      subst heq
      simp only [List.length_cons] at hfuel
      by_cases hfit : s ≤ GET_SIZE m (HDRP h)
      · rw [List.find?_cons_of_pos _ (by simp [hfit])]
        simp [scanList, hne, hfit]
      · have hstep : scanList m s (fuel + 1) h = scanList m s fuel (GET_NEXT m h) := by
          simp [scanList, hne, hfit]
        rw [hstep, ih fuel (GET_NEXT m h) hchain (by omega),
          List.find?_cons_of_neg _ (by simp [hfit])]

/-- The outer loop of find_fit, started at bin index `i`, returns the first
adequate block among the remaining bins' concatenated lists. -/
theorem scanBins_spec (m : Mem) (fuel s hl : Nat) (L : List (List Nat))
    (hL : L.length = 8)
    (henc : ∀ i < 8, chainN m (GET m (hl + WSIZE * i)) (L.getD i []) = true)
    (hfuel : ∀ l ∈ L, l.length < fuel) :
    ∀ (count i : Nat), i ≤ 8 → 8 - i ≤ count →
      scanBins m fuel s count (hl + WSIZE * i) (hl + 7 * WSIZE) =
        ((L.drop i).flatten).find? (fun a => decide (s ≤ GET_SIZE m (HDRP a))) := by
  intro count
  induction count with
  | zero =>
    intro i hi hcount
    have : i = 8 := by omega
    subst this
    rw [List.drop_eq_nil_of_le (by omega)]
    simp [scanBins]
  | succ count ih =>
    intro i hi hcount
    by_cases hile : i ≤ 7
    · have hcond : hl + WSIZE * i ≤ hl + 7 * WSIZE := by
        unfold WSIZE; omega
      have hdrop : L.drop i = L.getD i [] :: L.drop (i + 1) :=
        drop_eq_getD_cons (by omega)
      rw [hdrop]
      simp only [List.flatten_cons]
      rw [find?_append]
      have hscan := scanList_spec m s (L.getD i []) fuel (GET m (hl + WSIZE * i))
        (henc i (by omega))
        (by
          have hgd : L.getD i [] = L.get ⟨i, by omega⟩ := by
            simp [List.getD_eq_getElem?_getD,
              List.getElem?_eq_getElem (show i < L.length by omega), List.get_eq_getElem]
          rw [hgd]
          exact hfuel _ (List.get_mem L i (by omega)))
      simp only [scanBins, if_pos hcond, hscan]
      have harith : hl + WSIZE * i + WSIZE = hl + WSIZE * (i + 1) := by
        unfold WSIZE; ring
      cases hfind : (L.getD i []).find? (fun a => decide (s ≤ GET_SIZE m (HDRP a))) with
      | some a => rfl
      | none =>
        simp only []
        rw [harith, ih (i + 1) (by omega) (by omega)]
    · have : i = 8 := by omega
      subst this
      have hcond : ¬ (hl + WSIZE * 8 ≤ hl + 7 * WSIZE) := by
        unfold WSIZE; omega
      rw [List.drop_eq_nil_of_le (by omega)]
      simp [scanBins, hcond]

theorem specBinIndex_code_le (s : Nat) : specBinIndex codeBounds s ≤ 7 := by
  unfold specBinIndex
  exact Nat.le_trans (List.findIdx_le_length _) (by decide)

/-- C8: `find_fit` returns null immediately when `largest_free != 0` and the
request exceeds it; otherwise it scans the bins from `bin_for_size(s)`
through the last bin, each list linearly, returning the first block of size
at least `s` and null on exhaustion — exactly the specified first-fit scan
(`findFitSpec`) over the abstract bin lists `L` encoded in memory. -/
theorem C8_find_fit (st : AState) (fuel s : Nat) (L : List (List Nat))
    (hbin_hi : st.bin_hi = st.heap_lo + 7 * WSIZE)
    (henc : encBins st.mem st.heap_lo L)
    (hfuel : ∀ l ∈ L, l.length < fuel) :
    find_fit st fuel s =
      findFitSpec (fun a => GET_SIZE st.mem (HDRP a)) L st.largest_free s := by
  obtain ⟨hL, hencL⟩ := henc
  unfold find_fit findFitSpec
  by_cases hsc : st.largest_free ≠ 0 ∧ st.largest_free < s
  · rw [if_pos hsc, if_pos hsc]
  · rw [if_neg hsc, if_neg hsc]
    have hidx := specBinIndex_code_le s
    have hmain := scanBins_spec st.mem fuel s st.heap_lo L hL hencL hfuel 8
      (specBinIndex codeBounds s) (by omega) (by omega)
    rw [find_bin_index_eq st.heap_lo s, hbin_hi]
    exact hmain

/-- A concrete free-index state for the C8 witness: bin 1 (head word at
address 4) holds the single block 100, whose header at 96 carries size 200;
all other bins are empty and the hint is 0. -/
def stW8 : AState :=
  { mem := fun q => if q = 4 then 100 else if q = 96 then 200 else 0,
    heap_lo := 0, bin_hi := 28, block_lo := 0, largest_free := 0,
    brk := 0, cap := 0 }

/-- The abstract bin lists encoded by `stW8`. -/
def LW8 : List (List Nat) := [[], [100], [], [], [], [], [], []]

/-- C8 witness: the refinement applied on the concrete state `stW8`. -/
theorem C8_witness :
    find_fit stW8 10 200 =
      findFitSpec (fun a => GET_SIZE stW8.mem (HDRP a)) LW8 stW8.largest_free 200 :=
  C8_find_fit stW8 10 200 LW8 (by decide) (by decide) (by decide)

/-! ## Doubly linked free-list encoding

For claim C6 we verify `remove_block` and `prepend_block` against abstract
lists.  A bin's list is doubly linked through the first two payload words of
its free blocks; `chainD` encodes a list of node addresses together with the
back links. -/

/-- The two link cells of a free-list node. -/
def nodeCells (a : Nat) : List Nat := [a, a + PTR_SIZE]

/-- All link cells of a list of nodes. -/
def listCells : List Nat → List Nat
  | [] => []
  | a :: l => a :: (a + PTR_SIZE) :: listCells l

/-- Doubly linked chain: from expected back link `prevp` and head value `h`,
the nodes of `l` follow via next-links, each carrying the correct prev-link,
ending in a null next-link. -/
def chainD (m : Mem) : Nat → Nat → List Nat → Bool
  | _, h, [] => h == 0
  | prevp, h, a :: l =>
    h == a && a != 0 && (GET_PREV m a == prevp) && chainD m a (GET_NEXT m a) l

/-- Bin `b` encodes the doubly linked list `l`. -/
def encBinD (m : Mem) (b : Nat) (l : List Nat) : Bool := chainD m 0 (GET m b) l

/-- The memory produced by the two non-head branches of `remove_block`
(the block's stored prev-link is non-null). -/
def removeInteriorMem (m : Mem) (bp : Nat) : Mem :=
  if GET m bp = 0 then PUT m (GET m (bp + PTR_SIZE)) 0
  else PUT (PUT m (GET m (bp + PTR_SIZE)) (GET m bp)) (GET m bp + PTR_SIZE)
    (GET m (bp + PTR_SIZE))

theorem listCells_append (l1 l2 : List Nat) :
    listCells (l1 ++ l2) = listCells l1 ++ listCells l2 := by
  induction l1 with
  | nil => simp [listCells]
  | cons a t ih => simp [listCells, ih]

theorem mem_listCells_self {x : Nat} {l : List Nat} (h : x ∈ l) : x ∈ listCells l := by
  induction l with
  | nil => cases h
  | cons a t ih =>
    rcases List.mem_cons.mp h with rfl | ht
    · simp [listCells]
    · simp [listCells, ih ht]

theorem mem_listCells_link {x : Nat} {l : List Nat} (h : x ∈ l) :
    x + PTR_SIZE ∈ listCells l := by
  induction l with
  | nil => cases h
  | cons a t ih =>
    rcases List.mem_cons.mp h with rfl | ht
    · simp [listCells]
    · simp [listCells, ih ht]

/-- `chainD` only reads the link cells of its nodes. -/
theorem chainD_frame {m1 m2 : Mem} {l : List Nat}
    (hf : ∀ c ∈ listCells l, m2 c = m1 c) :
    ∀ p h, chainD m2 p h l = chainD m1 p h l := by
  induction l with
  | nil => intro p h; rfl
  | cons a t ih =>
    intro p h
    have ha : m2 a = m1 a := hf a (by simp [listCells])
    have ha4 : m2 (a + PTR_SIZE) = m1 (a + PTR_SIZE) := hf _ (by simp [listCells])
    have ht : ∀ c ∈ listCells t, m2 c = m1 c := by
      intro c hc; exact hf c (by simp [listCells, hc])
    simp only [chainD, GET_PREV, GET_NEXT, GET, ha, ha4, ih ht]

/-- Every node of a chain is non-null. -/
theorem chainD_ne_zero {m : Mem} {l : List Nat} :
    ∀ p h, chainD m p h l = true → ∀ x ∈ l, x ≠ 0 := by
  induction l with
  | nil => intro p h _ x hx; cases hx
  | cons a t ih =>
    intro p h hc x hx
    simp only [chainD, Bool.and_eq_true, beq_iff_eq, bne_iff_ne] at hc
    rcases List.mem_cons.mp hx with rfl | hxt
    · exact hc.1.1.2
    · exact ih a (GET_NEXT m a) hc.2 x hxt

/-- The stored prev-link of `bp` is one of the nodes in front of it. -/
theorem chainD_prev_mem {m : Mem} {bp : Nat} {l2 : List Nat} :
    ∀ (l1 : List Nat) (a p h : Nat),
      chainD m p h (a :: l1 ++ bp :: l2) = true →
      GET m (bp + PTR_SIZE) ∈ a :: l1 := by
  intro l1
  induction l1 with
  | nil =>
    intro a p h hc
    simp only [List.nil_append, chainD, Bool.and_eq_true, beq_iff_eq, bne_iff_ne,
      GET_PREV, GET_NEXT] at hc
    obtain ⟨⟨⟨_, _⟩, _⟩, ⟨⟨_, _⟩, hprev⟩, _⟩ := hc
    simp [hprev]
  | cons a2 t ih =>
    intro a p h hc
    simp only [List.cons_append, chainD, Bool.and_eq_true, beq_iff_eq, bne_iff_ne] at hc
    have := ih a2 a (GET_NEXT m a) (by
      simp only [List.cons_append, chainD, Bool.and_eq_true, beq_iff_eq, bne_iff_ne]
      exact hc.2)
    simp only [List.mem_cons] at this ⊢
    tauto

/-- The stored next-link of `bp` is null or the first node behind it. -/
theorem chainD_next_char {m : Mem} {bp p h : Nat} {l2 : List Nat}
    (hc : chainD m p h (bp :: l2) = true) :
    (l2 = [] ∧ GET m bp = 0) ∨ ∃ c l2a, l2 = c :: l2a ∧ GET m bp = c := by
  simp only [chainD, Bool.and_eq_true, beq_iff_eq, bne_iff_ne] at hc
  cases l2 with
  | nil =>
    left
    refine ⟨rfl, ?_⟩
    have := hc.2
    simp only [chainD, beq_iff_eq, GET_NEXT] at this
    exact this
  | cons c l2a =>
    right
    refine ⟨c, l2a, rfl, ?_⟩
    have := hc.2
    simp only [chainD, Bool.and_eq_true, beq_iff_eq, bne_iff_ne, GET_NEXT] at this
    exact this.1.1.1

theorem PUT_read_self (m : Mem) (p v : Nat) (hv : v < M32) : PUT m p v p = v := by
  unfold PUT
  rw [if_pos rfl]
  exact Nat.mod_eq_of_lt hv

theorem PUT_read_other (m : Mem) (p v q : Nat) (h : q ≠ p) : PUT m p v q = m q := by
  unfold PUT
  rw [if_neg h]

/-- A chain passing through `bp` contains a well-formed sub-chain at `bp`. -/
theorem chainD_suffix {m : Mem} {bp : Nat} {l2 : List Nat} :
    ∀ (l1 : List Nat) (p h : Nat), chainD m p h (l1 ++ bp :: l2) = true →
      ∃ p2, chainD m p2 bp (bp :: l2) = true := by
  intro l1
  induction l1 with
  | nil =>
    intro p h hc
    have hh : h = bp := by
      simp only [List.nil_append, chainD, Bool.and_eq_true, beq_iff_eq] at hc
      exact hc.1.1.1
    exact ⟨p, hh ▸ hc⟩
  | cons a t ih =>
    intro p h hc
    simp only [List.cons_append, chainD, Bool.and_eq_true] at hc
    exact ih a (GET_NEXT m a) hc.2

/-- Interior removal: unlinking `bp` from a doubly linked chain whose head
part `a :: l1` is nonempty produces the chain on `a :: l1 ++ l2`.  The memory
`removeInteriorMem m bp` is exactly what the two non-head branches of
`remove_block` write. -/
theorem chainD_remove_aux (m : Mem) (bp : Nat) (l2 : List Nat) :
    ∀ (l1 : List Nat) (a p h : Nat),
      chainD m p h (a :: l1 ++ bp :: l2) = true →
      (listCells (a :: l1 ++ bp :: l2)).Nodup →
      (∀ x ∈ a :: l1 ++ bp :: l2, x < M32) →
      chainD (removeInteriorMem m bp) p h (a :: l1 ++ l2) = true := by
  intro l1
  induction l1 with
  | nil =>
    intro a p h hc hN hS
    simp only [List.nil_append, chainD, Bool.and_eq_true, beq_iff_eq, bne_iff_ne,
      GET_PREV, GET_NEXT, GET, PTR_SIZE] at hc
    obtain ⟨⟨⟨hha, ha0⟩, hpa⟩, ⟨⟨hab, hb0⟩, hpb⟩, hc3⟩ := hc
    cases l2 with
    | nil =>
      have hnx : m bp = 0 := by
        simpa [chainD, GET_NEXT, GET] using hc3
      have hmw : removeInteriorMem m bp = PUT m a 0 := by
        simp [removeInteriorMem, GET, hnx, hpb, PTR_SIZE]
      have r1 : PUT m a 0 (a + 4) = m (a + 4) := PUT_read_other _ _ _ _ (by omega)
      have r2 : PUT m a 0 a = 0 := by
        unfold PUT M32
        simp
      simp only [List.nil_append, chainD, Bool.and_eq_true, beq_iff_eq, bne_iff_ne,
        GET_PREV, GET_NEXT, GET, PTR_SIZE, hmw, r1, r2]
      exact ⟨⟨⟨hha, ha0⟩, hpa⟩, by trivial⟩
    | cons c l2a =>
      simp only [chainD, Bool.and_eq_true, beq_iff_eq, bne_iff_ne, GET_PREV, GET_NEXT,
        GET, PTR_SIZE] at hc3
      obtain ⟨⟨⟨hbc, hc0⟩, hpc⟩, hc4⟩ := hc3
      have hmw : removeInteriorMem m bp = PUT (PUT m a c) (c + 4) a := by
        simp [removeInteriorMem, GET, hbc, hc0, hpb, PTR_SIZE]
      simp only [List.nil_append, listCells, List.nodup_cons, List.mem_cons,
        not_or, PTR_SIZE] at hN
      obtain ⟨⟨_, _, _, hac, hac4, haL⟩, ⟨_, _, ha4c, ha4c4, ha4L⟩, _, _,
        ⟨_, hcL⟩, hc4L, _⟩ := hN
      have hcS : c < M32 := hS c (by simp)
      have haS : a < M32 := hS a (by simp)
      have r1 : PUT (PUT m a c) (c + 4) a (a + 4) = m (a + 4) := by
        rw [PUT_read_other _ _ _ _ ha4c4, PUT_read_other _ _ _ _ (by omega)]
      have r2 : PUT (PUT m a c) (c + 4) a a = c := by
        rw [PUT_read_other _ _ _ _ hac4, PUT_read_self _ _ _ hcS]
      have r3 : PUT (PUT m a c) (c + 4) a (c + 4) = a := PUT_read_self _ _ _ haS
      have r4 : PUT (PUT m a c) (c + 4) a c = m c := by
        rw [PUT_read_other _ _ _ _ (by omega), PUT_read_other _ _ _ _ (Ne.symm hac)]
      simp only [List.nil_append, chainD, Bool.and_eq_true, beq_iff_eq, bne_iff_ne,
        GET_PREV, GET_NEXT, GET, PTR_SIZE, hmw, r1, r2, r3, r4]
      refine ⟨⟨⟨hha, ha0⟩, hpa⟩, ⟨⟨by trivial, hc0⟩, by trivial⟩, ?_⟩
      have hfr : ∀ x ∈ listCells l2a,
          PUT (PUT m a c) (c + 4) a x = m x := by
        intro x hx
        rw [PUT_read_other _ _ _ _ (by intro he; exact hc4L (he ▸ hx)),
          PUT_read_other _ _ _ _ (by intro he; exact haL (he ▸ hx))]
      rw [chainD_frame hfr c (m c)]
      exact hc4
  | cons a2 t ih =>
    intro a p h hc hN hS
    obtain ⟨p2, hsuf⟩ := chainD_suffix (a :: a2 :: t) p h (by
      simpa only [List.cons_append] using hc)
    simp only [List.cons_append, chainD, Bool.and_eq_true, beq_iff_eq, bne_iff_ne,
      GET_PREV, GET_NEXT, GET, PTR_SIZE] at hc
    obtain ⟨⟨⟨hha, ha0⟩, hpa⟩, hc2⟩ := hc
    have hc2b : chainD m a (m a) (a2 :: t ++ bp :: l2) = true := by
      simp only [List.cons_append, chainD, Bool.and_eq_true, beq_iff_eq, bne_iff_ne,
        GET_PREV, GET_NEXT, GET, PTR_SIZE]
      exact hc2
    have hpm : m (bp + 4) ∈ a2 :: t := by
      have := chainD_prev_mem t a2 a (m a) hc2b
      simpa [GET, PTR_SIZE] using this
    simp only [List.cons_append, listCells, List.nodup_cons, List.mem_cons,
      not_or, PTR_SIZE] at hN
    obtain ⟨⟨haa4, haa2, haa24, haT⟩, ⟨ha4a2, ha4a24, ha4T⟩, ⟨ha2a24, ha2T⟩,
      ha24T, hNtail⟩ := hN
    have hNrest : (listCells (a2 :: t ++ bp :: l2)).Nodup := by
      simp only [List.cons_append, listCells, List.nodup_cons, List.mem_cons,
        not_or, PTR_SIZE]
      exact ⟨⟨ha2a24, ha2T⟩, ha24T, hNtail⟩
    have hSrest : ∀ x ∈ a2 :: t ++ bp :: l2, x < M32 := by
      intro x hx
      refine hS x ?_
      simp only [List.cons_append, List.mem_cons] at hx ⊢
      tauto
    have hIH := ih a2 a (m a) hc2b hNrest hSrest
    have hpmcell : m (bp + 4) ∈ listCells (t ++ bp :: l2) ∨ m (bp + 4) = a2 := by
      rcases List.mem_cons.mp hpm with he | ht
      · right; exact he
      · left
        rw [listCells_append]
        exact List.mem_append_left _ (mem_listCells_self ht)
    have hane : a ≠ m (bp + 4) := by
      rcases hpmcell with hcell | he
      · intro he2; exact haT (he2 ▸ hcell)
      · rw [he]; exact haa2
    have ha4ne : a + 4 ≠ m (bp + 4) := by
      rcases hpmcell with hcell | he
      · intro he2; exact ha4T (he2 ▸ hcell)
      · rw [he]; exact ha4a2
    rcases chainD_next_char hsuf with ⟨hl2nil, hnx⟩ | ⟨c, l2a, hl2eq, hnx⟩
    · subst hl2nil
      have hnx2 : m bp = 0 := hnx
      have hmw : removeInteriorMem m bp = PUT m (m (bp + 4)) 0 := by
        simp [removeInteriorMem, GET, hnx2, PTR_SIZE]
      have ra : removeInteriorMem m bp a = m a := by
        rw [hmw]; exact PUT_read_other _ _ _ _ hane
      have ra4 : removeInteriorMem m bp (a + 4) = m (a + 4) := by
        rw [hmw]; exact PUT_read_other _ _ _ _ ha4ne
      simp only [List.cons_append, chainD, Bool.and_eq_true, beq_iff_eq, bne_iff_ne,
        GET_PREV, GET_NEXT, GET, PTR_SIZE, ra, ra4] at hIH ⊢
      exact ⟨⟨⟨hha, ha0⟩, hpa⟩, hIH⟩
    · subst hl2eq
      have hnx2 : m bp = c := hnx
      have hccell : c + 4 ∈ listCells (t ++ bp :: c :: l2a) := by
        rw [listCells_append]
        refine List.mem_append_right _ ?_
        simp [listCells, PTR_SIZE]
      have hanec4 : a ≠ c + 4 := by
        intro he; exact haT (he ▸ hccell)
      have ha4nec4 : a + 4 ≠ c + 4 := by
        intro he; exact ha4T (he ▸ hccell)
      have hc0 : c ≠ 0 := chainD_ne_zero p2 bp hsuf c (by simp)
      have hmw : removeInteriorMem m bp =
          PUT (PUT m (m (bp + 4)) c) (c + 4) (m (bp + 4)) := by
        simp [removeInteriorMem, GET, hnx2, hc0, PTR_SIZE]
      have ra : removeInteriorMem m bp a = m a := by
        rw [hmw, PUT_read_other _ _ _ _ hanec4, PUT_read_other _ _ _ _ hane]
      have ra4 : removeInteriorMem m bp (a + 4) = m (a + 4) := by
        rw [hmw, PUT_read_other _ _ _ _ ha4nec4, PUT_read_other _ _ _ _ ha4ne]
      simp only [List.cons_append, chainD, Bool.and_eq_true, beq_iff_eq, bne_iff_ne,
        GET_PREV, GET_NEXT, GET, PTR_SIZE, ra, ra4] at hIH ⊢
      exact ⟨⟨⟨hha, ha0⟩, hpa⟩, hIH⟩

theorem remove_block_heap_lo (st : AState) (bp size : Nat) :
    (remove_block st bp size).heap_lo = st.heap_lo := rfl

theorem prepend_block_heap_lo (st : AState) (bp size : Nat) :
    (prepend_block st bp size).heap_lo = st.heap_lo := rfl

/-- `encBinD` only reads the bin head word and the nodes' link cells. -/
theorem encBinD_frame {m1 m2 : Mem} {b : Nat} {l : List Nat}
    (hb : m2 b = m1 b) (hf : ∀ c ∈ listCells l, m2 c = m1 c) :
    encBinD m2 b l = encBinD m1 b l := by
  unfold encBinD GET
  rw [hb, chainD_frame hf]

/-- In the non-head case, `remove_block` writes exactly `removeInteriorMem`. -/
theorem remove_block_mem_interior (st : AState) (bp size : Nat)
    (hprev : GET_PREV st.mem bp ≠ 0) :
    (remove_block st bp size).mem = removeInteriorMem st.mem bp := by
  have hprev2 : ¬ GET st.mem (bp + PTR_SIZE) = 0 := hprev
  unfold remove_block removeInteriorMem PUT_NEXT PUT_PREV GET_PREV GET_NEXT
  have h1 : ¬ (GET st.mem (bp + PTR_SIZE) = 0 ∧ GET st.mem bp = 0) := by tauto
  simp only [if_neg h1, if_neg hprev2]

/-- Removing a block from the list its bin encodes yields the encoding of
the list without it.  This is the main correctness property of
`remove_block`: the block is unlinked exactly once, wherever it sits. -/
theorem remove_block_enc (st : AState) (b bp size : Nat) (l1 l2 : List Nat)
    (henc : encBinD st.mem b (l1 ++ bp :: l2) = true)
    (hN : (b :: listCells (l1 ++ bp :: l2)).Nodup)
    (hS : ∀ x ∈ l1 ++ bp :: l2, x < M32)
    (hbin : find_bin_for_size st.heap_lo (GET_SIZE st.mem (HDRP bp)) = b) :
    encBinD (remove_block st bp size).mem b (l1 ++ l2) = true := by
  simp only [List.nodup_cons] at hN
  obtain ⟨hbcells, hNc⟩ := hN
  cases l1 with
  | nil =>
    simp only [List.nil_append] at henc hNc hS ⊢
    unfold encBinD at henc
    simp only [chainD, Bool.and_eq_true, beq_iff_eq, bne_iff_ne, GET_PREV, GET_NEXT,
      GET, PTR_SIZE] at henc
    obtain ⟨⟨⟨hhb, hbp0⟩, hp0⟩, hc2⟩ := henc
    have hprev0 : GET_PREV st.mem bp = 0 := by
      simp [GET_PREV, GET, PTR_SIZE, hp0]
    cases l2 with
    | nil =>
      have hnx : GET_NEXT st.mem bp = 0 := by
        simpa [chainD, GET_NEXT, GET] using hc2
      have hmem : (remove_block st bp size).mem = PUT st.mem b 0 := by
        unfold remove_block
        simp [hprev0, hnx, hbin]
      unfold encBinD
      simp only [chainD, beq_iff_eq, GET, hmem]
      unfold PUT M32
      simp
    | cons c l2a =>
      simp only [chainD, Bool.and_eq_true, beq_iff_eq, bne_iff_ne, GET_PREV, GET_NEXT,
        GET, PTR_SIZE] at hc2
      obtain ⟨⟨⟨hbc, hc0⟩, hpc⟩, hc3⟩ := hc2
      have hnx : ¬ GET_NEXT st.mem bp = 0 := by
        simp [GET_NEXT, GET, hbc, hc0]
      have hmem : (remove_block st bp size).mem =
          PUT (PUT st.mem b c) (c + 4) 0 := by
        unfold remove_block PUT_PREV
        simp [hprev0, hnx, hbin, GET_NEXT, GET, PTR_SIZE, hbc, hc0]
      simp only [listCells, List.mem_cons, not_or, PTR_SIZE] at hbcells
      obtain ⟨hbbp, hbbp4, hbc2, hbc4, hbL⟩ := hbcells
      simp only [listCells, List.nodup_cons, List.mem_cons, not_or, PTR_SIZE] at hNc
      obtain ⟨⟨_, _, _, hbpL⟩, ⟨_, _, hbp4L⟩, ⟨_, hcL⟩, hc4L, _⟩ := hNc
      have hcS : c < M32 := hS c (by simp)
      have r1 : PUT (PUT st.mem b c) (c + 4) 0 b = c := by
        rw [PUT_read_other _ _ _ _ hbc4, PUT_read_self _ _ _ hcS]
      have r2 : PUT (PUT st.mem b c) (c + 4) 0 (c + 4) = 0 := by
        unfold PUT M32
        simp
      have r3 : PUT (PUT st.mem b c) (c + 4) 0 c = st.mem c := by
        rw [PUT_read_other _ _ _ _ (by omega),
          PUT_read_other _ _ _ _ (Ne.symm hbc2)]
      unfold encBinD
      simp only [chainD, Bool.and_eq_true, beq_iff_eq, bne_iff_ne, GET_PREV, GET_NEXT,
        GET, PTR_SIZE, hmem, r1, r2, r3]
      refine ⟨⟨⟨by trivial, hc0⟩, by trivial⟩, ?_⟩
      have hfr : ∀ x ∈ listCells l2a,
          PUT (PUT st.mem b c) (c + 4) 0 x = st.mem x := by
        intro x hx
        rw [PUT_read_other _ _ _ _ (by intro he; exact hc4L (he ▸ hx)),
          PUT_read_other _ _ _ _ (by intro he; exact hbL (he ▸ hx))]
      rw [chainD_frame hfr c (st.mem c)]
      exact hc3
  | cons a t =>
    unfold encBinD at henc
    have hpm : st.mem (bp + 4) ∈ a :: t := by
      have := chainD_prev_mem t a 0 (GET st.mem b) (by
        simpa only [List.cons_append] using henc)
      simpa [GET, PTR_SIZE] using this
    have hprev : GET_PREV st.mem bp ≠ 0 := by
      have : st.mem (bp + 4) ≠ 0 := by
        refine chainD_ne_zero 0 (GET st.mem b) henc _ ?_
        rcases List.mem_cons.mp hpm with he | ht
        · simp [he]
        · simp [List.mem_append, ht]
      simpa [GET_PREV, GET, PTR_SIZE] using this
    have hmem := remove_block_mem_interior st bp size hprev
    -- the bin head word is not among the written cells
    obtain ⟨p2, hsuf⟩ := chainD_suffix (a :: t) 0 (GET st.mem b) (by
      simpa only [List.cons_append] using henc)
    have hpmcells : st.mem (bp + 4) ∈ listCells (a :: t ++ bp :: l2) := by
      rcases List.mem_cons.mp hpm with he | ht
      · rw [he]; exact mem_listCells_self (by simp)
      · exact mem_listCells_self (by simp [List.mem_append, ht])
    have hbne : b ≠ st.mem (bp + 4) := by
      intro he
      exact hbcells (he ▸ hpmcells)
    have hwb : removeInteriorMem st.mem bp b = st.mem b := by
      unfold removeInteriorMem GET
      by_cases h0 : st.mem bp = 0
      · rw [if_pos h0]
        exact PUT_read_other _ _ _ _ hbne
      · rw [if_neg h0]
        rcases chainD_next_char hsuf with ⟨_, hnx⟩ | ⟨c, l2a, hl2eq, hnx⟩
        · exact absurd hnx h0
        · have hccell : c + 4 ∈ listCells (a :: t ++ bp :: l2) := by
            refine mem_listCells_link ?_
            simp [List.mem_append, hl2eq]
          have hbnec4 : b ≠ c + 4 := by
            intro he
            exact hbcells (he ▸ hccell)
          have hnx2 : st.mem bp = c := hnx
          rw [hnx2, PUT_read_other _ _ _ _ (show b ≠ c + PTR_SIZE from hbnec4),
            PUT_read_other _ _ _ _ (show b ≠ st.mem (bp + PTR_SIZE) from hbne)]
    have haux := chainD_remove_aux st.mem bp l2 t a 0 (GET st.mem b)
      (by simpa only [List.cons_append] using henc) hNc hS
    unfold encBinD
    rw [hmem]
    unfold GET at hwb ⊢
    rw [hwb]
    simpa only [List.cons_append] using haux

/-- Prepending a block to the list its bin encodes yields the encoding of
the extended list: the head is updated, the new block's links are set, and
the old head's back link (when present) now points at the new block. -/
theorem prepend_block_enc (st : AState) (b bp size : Nat) (l : List Nat)
    (henc : encBinD st.mem b l = true)
    (hN : (b :: listCells (bp :: l)).Nodup)
    (hS : ∀ x ∈ bp :: l, x < M32)
    (hbp0 : bp ≠ 0)
    (hbin : find_bin_for_size st.heap_lo size = b) :
    encBinD (prepend_block st bp size).mem b (bp :: l) = true := by
  simp only [List.nodup_cons, listCells, List.mem_cons, not_or, PTR_SIZE] at hN
  have hbS : bp < M32 := hS bp (by simp)
  cases l with
  | nil =>
    have hh0 : GET st.mem b = 0 := by
      simpa [encBinD, chainD, GET] using henc
    have hmem : (prepend_block st bp size).mem =
        PUT (PUT (PUT st.mem b bp) (bp + 4) 0) bp 0 := by
      unfold prepend_block PUT_PREV PUT_NEXT
      simp [hbin, hh0, PTR_SIZE]
    obtain ⟨⟨hbbp, hbbp4, _⟩, _⟩ := hN
    have r1 : PUT (PUT (PUT st.mem b bp) (bp + 4) 0) bp 0 b = bp := by
      rw [PUT_read_other _ _ _ _ hbbp, PUT_read_other _ _ _ _ hbbp4,
        PUT_read_self _ _ _ hbS]
    have r2 : PUT (PUT (PUT st.mem b bp) (bp + 4) 0) bp 0 (bp + 4) = 0 := by
      rw [PUT_read_other _ _ _ _ (by omega)]
      unfold PUT M32
      simp
    have r3 : PUT (PUT (PUT st.mem b bp) (bp + 4) 0) bp 0 bp = 0 := by
      unfold PUT M32
      simp
    unfold encBinD
    simp [chainD, Bool.and_eq_true, beq_iff_eq, bne_iff_ne, GET_PREV, GET_NEXT,
      GET, PTR_SIZE, hmem, r1, r2, r3, hbp0]
  | cons c l2 =>
    unfold encBinD at henc
    simp only [chainD, Bool.and_eq_true, beq_iff_eq, bne_iff_ne, GET_PREV, GET_NEXT,
      GET, PTR_SIZE] at henc
    obtain ⟨⟨⟨hbc, hc0⟩, hpc⟩, hc2⟩ := henc
    have hcS : c < M32 := hS c (by simp)
    obtain ⟨⟨hbbp, hbbp4, hbCL⟩, ⟨_, hbpCL⟩, hbp4CL, hNcl⟩ := hN
    simp only [listCells, List.mem_cons, not_or, PTR_SIZE] at hbCL hbpCL hbp4CL
    obtain ⟨hbc2, hbc4, hbL⟩ := hbCL
    obtain ⟨hbpc, hbpc4, hbpL⟩ := hbpCL
    obtain ⟨hbp4c, hbp4c4, hbp4L⟩ := hbp4CL
    simp only [listCells, List.nodup_cons, List.mem_cons, not_or, PTR_SIZE] at hNcl
    obtain ⟨⟨hcc4, hcL⟩, hc4L, _⟩ := hNcl
    have hmem : (prepend_block st bp size).mem =
        PUT (PUT (PUT (PUT st.mem (bp + 4) 0) (c + 4) bp) bp c) b bp := by
      unfold prepend_block PUT_PREV PUT_NEXT
      have : GET st.mem b = c := hbc
      simp [hbin, this, hc0, PTR_SIZE]
    have r1 : (prepend_block st bp size).mem b = bp := by
      rw [hmem, PUT_read_self _ _ _ hbS]
    have r2 : (prepend_block st bp size).mem (bp + 4) = 0 := by
      rw [hmem, PUT_read_other _ _ _ _ (Ne.symm hbbp4),
        PUT_read_other _ _ _ _ (by omega),
        PUT_read_other _ _ _ _ hbp4c4]
      unfold PUT M32
      simp
    have r3 : (prepend_block st bp size).mem bp = c := by
      rw [hmem, PUT_read_other _ _ _ _ (Ne.symm hbbp), PUT_read_self _ _ _ hcS]
    have r4 : (prepend_block st bp size).mem (c + 4) = bp := by
      rw [hmem, PUT_read_other _ _ _ _ (Ne.symm hbc4),
        PUT_read_other _ _ _ _ (Ne.symm hbpc4), PUT_read_self _ _ _ hbS]
    have r5 : (prepend_block st bp size).mem c = st.mem c := by
      rw [hmem, PUT_read_other _ _ _ _ (Ne.symm hbc2),
        PUT_read_other _ _ _ _ (Ne.symm hbpc),
        PUT_read_other _ _ _ _ (by omega),
        PUT_read_other _ _ _ _ (Ne.symm hbp4c)]
    unfold encBinD
    simp only [chainD, Bool.and_eq_true, beq_iff_eq, bne_iff_ne, GET_PREV, GET_NEXT,
      GET, PTR_SIZE, r1, r2, r3, r4, r5]
    refine ⟨⟨⟨by trivial, hbp0⟩, by trivial⟩, ⟨⟨by trivial, hc0⟩, by trivial⟩, ?_⟩
    have hfr : ∀ x ∈ listCells l2, (prepend_block st bp size).mem x = st.mem x := by
      intro x hx
      rw [hmem, PUT_read_other _ _ _ _ (by intro he; exact hbL (he ▸ hx)),
        PUT_read_other _ _ _ _ (by intro he; exact hbpL (he ▸ hx)),
        PUT_read_other _ _ _ _ (by intro he; exact hc4L (he ▸ hx)),
        PUT_read_other _ _ _ _ (by intro he; exact hbp4L (he ▸ hx))]
    rw [chainD_frame hfr c (st.mem c)]
    exact hc2

/-- Removing a node from a cell-distinct list leaves its two cells outside
the remaining list's cells. -/
theorem nodup_cells_mid {l1 l2 : List Nat} {x : Nat}
    (h : (listCells (l1 ++ x :: l2)).Nodup) :
    x ∉ listCells (l1 ++ l2) ∧ x + PTR_SIZE ∉ listCells (l1 ++ l2) ∧
      (listCells (l1 ++ l2)).Nodup := by
  rw [listCells_append] at h
  simp only [listCells] at h
  rw [List.nodup_middle, List.nodup_cons] at h
  obtain ⟨hx, h2⟩ := h
  rw [List.nodup_middle, List.nodup_cons] at h2
  obtain ⟨hx4, h4⟩ := h2
  rw [listCells_append]
  refine ⟨?_, ?_, h4⟩
  · intro hmem
    apply hx
    rcases List.mem_append.mp hmem with hl | hr
    · exact List.mem_append_left _ hl
    · exact List.mem_append_right _ (List.mem_cons_of_mem _ hr)
  · exact fun hmem => hx4 hmem

/-- Every cell `remove_block` writes lies in the removed block's bin closure:
the bin head word or a link cell of the encoded list. -/
theorem removeWriteCells_sub (st : AState) (b x : Nat) (l1 l2 : List Nat)
    (henc : encBinD st.mem b (l1 ++ x :: l2) = true)
    (hbin : find_bin_for_size st.heap_lo (GET_SIZE st.mem (HDRP x)) = b) :
    ∀ q ∈ removeWriteCells st x, q ∈ b :: listCells (l1 ++ x :: l2) := by
  intro q hq
  unfold encBinD at henc
  obtain ⟨p2, hsuf⟩ := chainD_suffix l1 0 (GET st.mem b) henc
  have hprevchar : (GET_PREV st.mem x = 0) ∨
      (GET_PREV st.mem x ∈ l1 ∧ GET_PREV st.mem x ≠ 0) := by
    cases l1 with
    | nil =>
      left
      simp only [List.nil_append, chainD, Bool.and_eq_true, beq_iff_eq,
        bne_iff_ne] at henc
      exact henc.1.2
    | cons a t =>
      right
      have hpm := chainD_prev_mem t a 0 (GET st.mem b) (by
        simpa only [List.cons_append] using henc)
      refine ⟨hpm, ?_⟩
      refine chainD_ne_zero 0 (GET st.mem b) henc _ ?_
      exact List.mem_append_left _ hpm
  have hnextchar : (GET_NEXT st.mem x = 0) ∨
      (GET_NEXT st.mem x ∈ l2 ∧ GET_NEXT st.mem x ≠ 0) := by
    rcases chainD_next_char hsuf with ⟨_, hnx⟩ | ⟨c, l2a, hl2, hnx⟩
    · left; exact hnx
    · right
      refine ⟨?_, ?_⟩
      · simp [GET_NEXT, hnx, hl2]
      · have hc0 : c ≠ 0 := chainD_ne_zero p2 x hsuf c (by simp [hl2])
        simp [GET_NEXT, hnx, hc0]
  unfold removeWriteCells at hq
  rcases hprevchar with hp0 | ⟨hpmem, hpne⟩
  · rcases hnextchar with hn0 | ⟨hnmem, hnne⟩
    · simp only [hp0, hn0, and_self, if_pos, List.mem_singleton] at hq
      subst hq
      simp [hbin]
    · have hcond : ¬ (GET_PREV st.mem x = 0 ∧ GET_NEXT st.mem x = 0) := by tauto
      simp only [if_neg hcond, if_pos hp0, List.mem_cons, List.not_mem_nil,
        or_false] at hq
      rcases hq with rfl | rfl
      · simp [hbin]
      · right
        exact mem_listCells_link (List.mem_append_right _ (List.mem_cons_of_mem _ hnmem))
  · have hcond : ¬ (GET_PREV st.mem x = 0 ∧ GET_NEXT st.mem x = 0) := by tauto
    rcases hnextchar with hn0 | ⟨hnmem, hnne⟩
    · simp only [if_neg hcond, if_neg hpne, if_pos hn0, List.mem_singleton] at hq
      subst hq
      right
      exact mem_listCells_self (List.mem_append_left _ hpmem)
    · simp only [if_neg hcond, if_neg hpne, if_neg hnne, List.mem_cons,
        List.not_mem_nil, or_false] at hq
      rcases hq with rfl | rfl
      · right
        exact mem_listCells_self (List.mem_append_left _ hpmem)
      · right
        exact mem_listCells_link (List.mem_append_right _ (List.mem_cons_of_mem _ hnmem))

/-- Frame: `remove_block` leaves every cell outside the block's bin closure
unchanged. -/
theorem remove_block_frame_enc (st : AState) (b x size : Nat) (l1 l2 : List Nat)
    (henc : encBinD st.mem b (l1 ++ x :: l2) = true)
    (hbin : find_bin_for_size st.heap_lo (GET_SIZE st.mem (HDRP x)) = b)
    (q : Nat) (hq : q ∉ b :: listCells (l1 ++ x :: l2)) :
    (remove_block st x size).mem q = st.mem q :=
  remove_block_frame st x size q
    (fun hmem => hq (removeWriteCells_sub st b x l1 l2 henc hbin q hmem))

/-- Every cell `prepend_block` writes is the bin head word, one of the new
block's two link cells, or the old head's back-link cell. -/
theorem prepend_block_writes_char (st : AState) (b bp size : Nat) (l : List Nat)
    (henc : encBinD st.mem b l = true)
    (hbin : find_bin_for_size st.heap_lo size = b) :
    ∀ q ∈ prependWriteCells st bp size,
      q = b ∨ q = bp ∨ q = bp + PTR_SIZE ∨ ∃ c, c ∈ l ∧ q = c + PTR_SIZE := by
  intro q hq
  unfold prependWriteCells at hq
  rw [hbin] at hq
  by_cases h0 : GET st.mem b = 0
  · rw [if_pos h0] at hq
    simp only [List.mem_cons, List.not_mem_nil, or_false] at hq
    rcases hq with rfl | rfl | rfl
    · exact Or.inl rfl
    · exact Or.inr (Or.inr (Or.inl rfl))
    · exact Or.inr (Or.inl rfl)
  · rw [if_neg h0] at hq
    cases l with
    | nil =>
      exfalso
      apply h0
      simpa [encBinD, chainD, GET] using henc
    | cons c l2 =>
      have hhead : GET st.mem b = c := by
        unfold encBinD at henc
        simp only [chainD, Bool.and_eq_true, beq_iff_eq] at henc
        exact henc.1.1.1
      rw [hhead] at hq
      simp only [List.mem_cons, List.not_mem_nil, or_false] at hq
      rcases hq with rfl | rfl | rfl | rfl
      · exact Or.inr (Or.inr (Or.inl rfl))
      · exact Or.inr (Or.inr (Or.inr ⟨c, by simp, rfl⟩))
      · exact Or.inr (Or.inl rfl)
      · exact Or.inl rfl

/-- Frame: `prepend_block` leaves alone every cell that is neither the bin
head, a link cell of the new block, nor a back-link cell of the list. -/
theorem prepend_block_frame_enc (st : AState) (b bp size : Nat) (l : List Nat)
    (henc : encBinD st.mem b l = true)
    (hbin : find_bin_for_size st.heap_lo size = b)
    (q : Nat) (hq1 : q ≠ b) (hq2 : q ≠ bp) (hq3 : q ≠ bp + PTR_SIZE)
    (hq4 : ∀ c ∈ l, q ≠ c + PTR_SIZE) :
    (prepend_block st bp size).mem q = st.mem q := by
  refine prepend_block_frame st bp size q ?_
  intro hmem
  rcases prepend_block_writes_char st b bp size l henc hbin q hmem with
    rfl | rfl | rfl | ⟨c, hc, rfl⟩
  · exact hq1 rfl
  · exact hq2 rfl
  · exact hq3 rfl
  · exact hq4 c hc rfl

/-- Cells of a list with a node removed are cells of the original list. -/
theorem cells_subset_mid {l1 l2 : List Nat} {x c : Nat}
    (h : c ∈ listCells (l1 ++ l2)) : c ∈ listCells (l1 ++ x :: l2) := by
  rw [listCells_append] at h ⊢
  simp only [listCells]
  rcases List.mem_append.mp h with hl | hr
  · exact List.mem_append_left _ hl
  · exact List.mem_append_right _ (by simp [hr])

/-! ## Claim C6: the both-free case of coalesce -/

/-- C6: when both neighbors of the freed block `bp` are free, `coalesce`
removes the previous block (at `bp - ps`) from its free list exactly once and
the next block (at `bp + s`) from its free list exactly once (each list loses
exactly that node), the merged size is `size(prev) + size(bp) + size(next)`,
the merged header and footer are written at the previous block, the result
pointer is the previous block, and the merged block is inserted into the free
index exactly once (prepended to its bin).  Hypotheses: the boundary tags of
the three blocks as read by the code, the three bins' encoded lists, cell
distinctness and disjointness of the three bin closures, and disjointness of
the five boundary-tag cells from all link cells. -/
theorem C6_coalesce_both_free
    (st : AState) (bp s ps ns bP bN bM : Nat) (lP1 lP2 lN1 lN2 lM : List Nat)
    (hs : GET_SIZE st.mem (HDRP bp) = s)
    (hpf : GET_SIZE st.mem (bp - DSIZE) = ps)
    (hph : GET_SIZE st.mem (HDRP (bp - ps)) = ps)
    (hpalloc : GET_ALLOC st.mem (bp - DSIZE) = 0)
    (hnh : GET_SIZE st.mem (HDRP (bp + s)) = ns)
    (hnalloc : GET_ALLOC st.mem (HDRP (bp + s)) = 0)
    (hps16 : 16 ≤ ps) (hs16 : 16 ≤ s) (hns16 : 16 ≤ ns)
    (hbp8 : ps + 8 ≤ bp)
    (hM32 : s + ps + ns + 1 < M32)
    (hbinP : find_bin_for_size st.heap_lo ps = bP)
    (hbinN : find_bin_for_size st.heap_lo ns = bN)
    (hbinM : find_bin_for_size st.heap_lo (s + ps + ns) = bM)
    (hencP : encBinD st.mem bP (lP1 ++ (bp - ps) :: lP2) = true)
    (hencN : encBinD st.mem bN (lN1 ++ (bp + s) :: lN2) = true)
    (hencM : encBinD st.mem bM lM = true)
    (hNdA : (bP :: listCells (lP1 ++ (bp - ps) :: lP2)).Nodup)
    (hNdB : (bN :: listCells (lN1 ++ (bp + s) :: lN2)).Nodup)
    (hNdC : (bM :: listCells lM).Nodup)
    (hAB : ∀ x ∈ bP :: listCells (lP1 ++ (bp - ps) :: lP2),
      x ∉ bN :: listCells (lN1 ++ (bp + s) :: lN2))
    (hAC : ∀ x ∈ bP :: listCells (lP1 ++ (bp - ps) :: lP2), x ∉ bM :: listCells lM)
    (hBC : ∀ x ∈ bN :: listCells (lN1 ++ (bp + s) :: lN2), x ∉ bM :: listCells lM)
    (htagA : ∀ x ∈ [HDRP bp, bp - DSIZE, HDRP (bp - ps), HDRP (bp + s),
      bp + s + ns - DSIZE], x ∉ bP :: listCells (lP1 ++ (bp - ps) :: lP2))
    (htagB : ∀ x ∈ [HDRP bp, bp - DSIZE, HDRP (bp - ps), HDRP (bp + s),
      bp + s + ns - DSIZE], x ∉ bN :: listCells (lN1 ++ (bp + s) :: lN2))
    (htagC : ∀ x ∈ [HDRP bp, bp - DSIZE, HDRP (bp - ps), HDRP (bp + s),
      bp + s + ns - DSIZE], x ∉ bM :: listCells lM)
    (hSP : ∀ x ∈ lP1 ++ (bp - ps) :: lP2, x < M32)
    (hSN : ∀ x ∈ lN1 ++ (bp + s) :: lN2, x < M32)
    (hSM : ∀ x ∈ lM, x < M32) :
    (coalesce st bp).1 = bp - ps ∧
      (coalesce st bp).2.mem (HDRP (bp - ps)) = PACK (s + ps + ns) 0 ∧
      (coalesce st bp).2.mem (bp + s + ns - DSIZE) = PACK (s + ps + ns) 0 ∧
      encBinD (coalesce st bp).2.mem bP (lP1 ++ lP2) = true ∧
      encBinD (coalesce st bp).2.mem bN (lN1 ++ lN2) = true ∧
      encBinD (coalesce st bp).2.mem bM ((bp - ps) :: lM) = true := by
  have hPB : PREV_BLKP st.mem bp = bp - ps := by
    unfold PREV_BLKP
    rw [hpf]
  have hNBe : NEXT_BLKP st.mem bp = bp + s := by
    unfold NEXT_BLKP
    rw [show GET_SIZE st.mem (bp - WSIZE) = s from hs]
  have hFT : FTRP st.mem (bp - ps) = bp - DSIZE := by
    unfold FTRP
    rw [hph]
    unfold DSIZE
    omega
  unfold coalesce
  simp only [hPB, hNBe, hFT, hpalloc, hnalloc, hs, hph, hnh]
  split_ifs with h1 h2 h3
  · exact absurd rfl h1.1
  · exact absurd rfl h2.1
  · exact absurd rfl h3.2
  have hq_fromB : ∀ q, q ∈ bN :: listCells (lN1 ++ (bp + s) :: lN2) →
      q ∉ bP :: listCells (lP1 ++ (bp - ps) :: lP2) := fun q hqB hqA => hAB q hqA hqB
  have hq_fromC_A : ∀ q, q ∈ bM :: listCells lM →
      q ∉ bP :: listCells (lP1 ++ (bp - ps) :: lP2) := fun q hqC hqA => hAC q hqA hqC
  have hq_fromC_B : ∀ q, q ∈ bM :: listCells lM →
      q ∉ bN :: listCells (lN1 ++ (bp + s) :: lN2) := fun q hqC hqB => hBC q hqB hqC
  have hbinP2 : find_bin_for_size st.heap_lo (GET_SIZE st.mem (HDRP (bp - ps))) = bP := by
    rw [hph]; exact hbinP
  have fA : ∀ q, q ∉ bP :: listCells (lP1 ++ (bp - ps) :: lP2) →
      (remove_block st (bp - ps) ps).mem q = st.mem q :=
    fun q hq => remove_block_frame_enc st bP (bp - ps) ps lP1 lP2 hencP hbinP2 q hq
  have eq1 : NEXT_BLKP (remove_block st (bp - ps) ps).mem bp = bp + s := by
    rw [NEXT_BLKP_congr bp (fA (HDRP bp) (htagA _ (by simp)))]
    exact hNBe
  rw [eq1]
  have e_N1 : encBinD (remove_block st (bp - ps) ps).mem bN
      (lN1 ++ (bp + s) :: lN2) = true := by
    rw [encBinD_frame (fA bN (hq_fromB bN (List.mem_cons_self _ _)))
      (fun c hc => fA c (hq_fromB c (List.mem_cons_of_mem _ hc)))]
    exact hencN
  have e_M1 : encBinD (remove_block st (bp - ps) ps).mem bM lM = true := by
    rw [encBinD_frame (fA bM (hq_fromC_A bM (List.mem_cons_self _ _)))
      (fun c hc => fA c (hq_fromC_A c (List.mem_cons_of_mem _ hc)))]
    exact hencM
  have e_P1 : encBinD (remove_block st (bp - ps) ps).mem bP (lP1 ++ lP2) = true :=
    remove_block_enc st bP (bp - ps) ps lP1 lP2 hencP hNdA hSP hbinP2
  have hbinN2 : find_bin_for_size (remove_block st (bp - ps) ps).heap_lo
      (GET_SIZE (remove_block st (bp - ps) ps).mem (HDRP (bp + s))) = bN := by
    simp only [remove_block_heap_lo]
    rw [GET_SIZE_congr (HDRP (bp + s)) (fA (HDRP (bp + s)) (htagA _ (by simp))), hnh]
    exact hbinN
  have fB : ∀ q, q ∉ bN :: listCells (lN1 ++ (bp + s) :: lN2) →
      (remove_block (remove_block st (bp - ps) ps) (bp + s) ns).mem q =
        (remove_block st (bp - ps) ps).mem q :=
    fun q hq => remove_block_frame_enc (remove_block st (bp - ps) ps) bN (bp + s) ns
      lN1 lN2 e_N1 hbinN2 q hq
  have fT : ∀ q ∈ [HDRP bp, bp - DSIZE, HDRP (bp - ps), HDRP (bp + s),
      bp + s + ns - DSIZE],
      (remove_block (remove_block st (bp - ps) ps) (bp + s) ns).mem q = st.mem q :=
    fun q hq => (fB q (htagB q hq)).trans (fA q (htagA q hq))
  have eq2 : PREV_BLKP
      (remove_block (remove_block st (bp - ps) ps) (bp + s) ns).mem bp = bp - ps := by
    rw [PREV_BLKP_congr bp (fT (bp - DSIZE) (by simp))]
    exact hPB
  rw [eq2]
  have hm1hdr : PUT (remove_block (remove_block st (bp - ps) ps) (bp + s) ns).mem
      (HDRP (bp - ps)) (PACK (s + ps + ns) 0) (HDRP bp) = st.mem (HDRP bp) := by
    rw [PUT_read_other _ _ _ _ (by unfold HDRP WSIZE; omega)]
    exact fT (HDRP bp) (by simp)
  have eq3 : NEXT_BLKP (PUT
      (remove_block (remove_block st (bp - ps) ps) (bp + s) ns).mem
      (HDRP (bp - ps)) (PACK (s + ps + ns) 0)) bp = bp + s := by
    rw [NEXT_BLKP_congr bp hm1hdr]
    exact hNBe
  rw [eq3]
  have hm1n : PUT (remove_block (remove_block st (bp - ps) ps) (bp + s) ns).mem
      (HDRP (bp - ps)) (PACK (s + ps + ns) 0) (HDRP (bp + s)) =
      st.mem (HDRP (bp + s)) := by
    rw [PUT_read_other _ _ _ _ (by unfold HDRP WSIZE; omega)]
    exact fT (HDRP (bp + s)) (by simp)
  have eq4 : FTRP (PUT
      (remove_block (remove_block st (bp - ps) ps) (bp + s) ns).mem
      (HDRP (bp - ps)) (PACK (s + ps + ns) 0)) (bp + s) = bp + s + ns - DSIZE := by
    unfold FTRP
    rw [GET_SIZE_congr (HDRP (bp + s)) hm1n, hnh]
  rw [eq4]
  have hm2pf : PUT (PUT
      (remove_block (remove_block st (bp - ps) ps) (bp + s) ns).mem
      (HDRP (bp - ps)) (PACK (s + ps + ns) 0)) (bp + s + ns - DSIZE)
      (PACK (s + ps + ns) 0) (bp - DSIZE) = st.mem (bp - DSIZE) := by
    rw [PUT_read_other _ _ _ _ (by unfold DSIZE; omega),
      PUT_read_other _ _ _ _ (by unfold HDRP WSIZE DSIZE; omega)]
    exact fT (bp - DSIZE) (by simp)
  have eq5 : PREV_BLKP (PUT (PUT
      (remove_block (remove_block st (bp - ps) ps) (bp + s) ns).mem
      (HDRP (bp - ps)) (PACK (s + ps + ns) 0)) (bp + s + ns - DSIZE)
      (PACK (s + ps + ns) 0)) bp = bp - ps := by
    rw [PREV_BLKP_congr bp hm2pf]
    exact hPB
  rw [eq5]
  have e_P2 : encBinD
      (remove_block (remove_block st (bp - ps) ps) (bp + s) ns).mem
      bP (lP1 ++ lP2) = true := by
    rw [encBinD_frame (fB bP (hAB bP (List.mem_cons_self _ _)))
      (fun c hc => fB c (hAB c (List.mem_cons_of_mem _ (cells_subset_mid hc))))]
    exact e_P1
  have e_N2 : encBinD
      (remove_block (remove_block st (bp - ps) ps) (bp + s) ns).mem
      bN (lN1 ++ lN2) = true :=
    remove_block_enc (remove_block st (bp - ps) ps) bN (bp + s) ns lN1 lN2 e_N1
      hNdB hSN hbinN2
  have e_M2 : encBinD
      (remove_block (remove_block st (bp - ps) ps) (bp + s) ns).mem bM lM = true := by
    rw [encBinD_frame (fB bM (hq_fromC_B bM (List.mem_cons_self _ _)))
      (fun c hc => fB c (hq_fromC_B c (List.mem_cons_of_mem _ hc)))]
    exact e_M1
  have ftagC2 : ∀ q, q ∈ bM :: listCells lM →
      PUT (PUT (remove_block (remove_block st (bp - ps) ps) (bp + s) ns).mem
        (HDRP (bp - ps)) (PACK (s + ps + ns) 0)) (bp + s + ns - DSIZE)
        (PACK (s + ps + ns) 0) q =
      (remove_block (remove_block st (bp - ps) ps) (bp + s) ns).mem q := by
    intro q hqC
    rw [PUT_read_other _ _ _ _
        (fun he => htagC (bp + s + ns - DSIZE) (by simp) (by rw [← he]; exact hqC)),
      PUT_read_other _ _ _ _
        (fun he => htagC (HDRP (bp - ps)) (by simp) (by rw [← he]; exact hqC))]
  have e_Mx : encBinD (PUT (PUT
      (remove_block (remove_block st (bp - ps) ps) (bp + s) ns).mem
      (HDRP (bp - ps)) (PACK (s + ps + ns) 0)) (bp + s + ns - DSIZE)
      (PACK (s + ps + ns) 0)) bM lM = true := by
    rw [encBinD_frame (ftagC2 bM (List.mem_cons_self _ _))
      (fun c hc => ftagC2 c (List.mem_cons_of_mem _ hc))]
    exact e_M2
  have hP0 : bp - ps ≠ 0 := by omega
  have hPmemA : bp - ps ∈ listCells (lP1 ++ (bp - ps) :: lP2) :=
    mem_listCells_self (List.mem_append_right _ (List.mem_cons_self _ _))
  have hP4memA : bp - ps + PTR_SIZE ∈ listCells (lP1 ++ (bp - ps) :: lP2) :=
    mem_listCells_link (List.mem_append_right _ (List.mem_cons_self _ _))
  have hbPnot : bP ∉ listCells (lP1 ++ (bp - ps) :: lP2) := (List.nodup_cons.mp hNdA).1
  obtain ⟨hPnot, hP4not, _⟩ := nodup_cells_mid (List.nodup_cons.mp hNdA).2
  have hbNnot : bN ∉ listCells (lN1 ++ (bp + s) :: lN2) := (List.nodup_cons.mp hNdB).1
  have hNodX : (bM :: listCells ((bp - ps) :: lM)).Nodup := by
    simp only [listCells, List.nodup_cons, List.mem_cons, not_or]
    refine ⟨⟨?_, ?_, ?_⟩, ⟨?_, ?_⟩, ?_, ?_⟩
    · exact fun he => hq_fromC_A bM (List.mem_cons_self _ _)
        (by rw [he]; exact List.mem_cons_of_mem _ hPmemA)
    · exact fun he => hq_fromC_A bM (List.mem_cons_self _ _)
        (by rw [he]; exact List.mem_cons_of_mem _ hP4memA)
    · exact (List.nodup_cons.mp hNdC).1
    · unfold PTR_SIZE; omega
    · exact fun hmem => hAC (bp - ps) (List.mem_cons_of_mem _ hPmemA)
        (List.mem_cons_of_mem _ hmem)
    · exact fun hmem => hAC (bp - ps + PTR_SIZE) (List.mem_cons_of_mem _ hP4memA)
        (List.mem_cons_of_mem _ hmem)
    · exact (List.nodup_cons.mp hNdC).2
  have hSX : ∀ x ∈ (bp - ps) :: lM, x < M32 := by
    intro x hx
    rcases List.mem_cons.mp hx with rfl | h
    · exact hSP _ (List.mem_append_right _ (List.mem_cons_self _ _))
    · exact hSM x h
  refine ⟨rfl, ?_, ?_, ?_, ?_, ?_⟩
  · rw [prepend_block_frame_enc
      { mem := PUT (PUT
                (remove_block (remove_block st (bp - ps) ps) (bp + s) ns).mem
                (HDRP (bp - ps)) (PACK (s + ps + ns) 0)) (bp + s + ns - DSIZE)
                (PACK (s + ps + ns) 0),
              heap_lo := (remove_block (remove_block st (bp - ps) ps) (bp + s) ns).heap_lo,
              bin_hi := (remove_block (remove_block st (bp - ps) ps) (bp + s) ns).bin_hi,
              block_lo := (remove_block (remove_block st (bp - ps) ps) (bp + s) ns).block_lo,
              largest_free :=
                (remove_block (remove_block st (bp - ps) ps) (bp + s) ns).largest_free,
              brk := (remove_block (remove_block st (bp - ps) ps) (bp + s) ns).brk,
              cap := (remove_block (remove_block st (bp - ps) ps) (bp + s) ns).cap }
      bM (bp - ps) (s + ps + ns) lM e_Mx hbinM
      (HDRP (bp - ps))
      (fun he => htagC (HDRP (bp - ps)) (by simp)
        (by rw [he]; exact List.mem_cons_self _ _))
      (by unfold HDRP WSIZE; omega)
      (by unfold HDRP WSIZE PTR_SIZE; omega)
      (fun c hc he => htagC (HDRP (bp - ps)) (by simp)
        (by rw [he]; exact List.mem_cons_of_mem _ (mem_listCells_link hc)))]
    show PUT (PUT (remove_block (remove_block st (bp - ps) ps) (bp + s) ns).mem
        (HDRP (bp - ps)) (PACK (s + ps + ns) 0)) (bp + s + ns - DSIZE)
        (PACK (s + ps + ns) 0) (HDRP (bp - ps)) = PACK (s + ps + ns) 0
    rw [PUT_read_other _ (bp + s + ns - DSIZE) _ (HDRP (bp - ps))
        (by unfold HDRP WSIZE DSIZE; omega),
      PUT_read_self _ (HDRP (bp - ps)) _ (by unfold PACK; omega)]
  · rw [prepend_block_frame_enc
      { mem := PUT (PUT
                (remove_block (remove_block st (bp - ps) ps) (bp + s) ns).mem
                (HDRP (bp - ps)) (PACK (s + ps + ns) 0)) (bp + s + ns - DSIZE)
                (PACK (s + ps + ns) 0),
              heap_lo := (remove_block (remove_block st (bp - ps) ps) (bp + s) ns).heap_lo,
              bin_hi := (remove_block (remove_block st (bp - ps) ps) (bp + s) ns).bin_hi,
              block_lo := (remove_block (remove_block st (bp - ps) ps) (bp + s) ns).block_lo,
              largest_free :=
                (remove_block (remove_block st (bp - ps) ps) (bp + s) ns).largest_free,
              brk := (remove_block (remove_block st (bp - ps) ps) (bp + s) ns).brk,
              cap := (remove_block (remove_block st (bp - ps) ps) (bp + s) ns).cap }
      bM (bp - ps) (s + ps + ns) lM e_Mx hbinM
      (bp + s + ns - DSIZE)
      (fun he => htagC (bp + s + ns - DSIZE) (by simp)
        (by rw [he]; exact List.mem_cons_self _ _))
      (by unfold DSIZE; omega)
      (by unfold DSIZE PTR_SIZE; omega)
      (fun c hc he => htagC (bp + s + ns - DSIZE) (by simp)
        (by rw [he]; exact List.mem_cons_of_mem _ (mem_listCells_link hc)))]
    show PUT (PUT (remove_block (remove_block st (bp - ps) ps) (bp + s) ns).mem
        (HDRP (bp - ps)) (PACK (s + ps + ns) 0)) (bp + s + ns - DSIZE)
        (PACK (s + ps + ns) 0) (bp + s + ns - DSIZE) = PACK (s + ps + ns) 0
    rw [PUT_read_self _ (bp + s + ns - DSIZE) _ (by unfold PACK; omega)]
  · have ffin : ∀ q, (q = bP ∨ q ∈ listCells (lP1 ++ lP2)) →
        (prepend_block
          { mem := PUT (PUT
              (remove_block (remove_block st (bp - ps) ps) (bp + s) ns).mem
              (HDRP (bp - ps)) (PACK (s + ps + ns) 0)) (bp + s + ns - DSIZE)
              (PACK (s + ps + ns) 0),
            heap_lo := (remove_block (remove_block st (bp - ps) ps) (bp + s) ns).heap_lo,
            bin_hi := (remove_block (remove_block st (bp - ps) ps) (bp + s) ns).bin_hi,
            block_lo := (remove_block (remove_block st (bp - ps) ps) (bp + s) ns).block_lo,
            largest_free :=
              (remove_block (remove_block st (bp - ps) ps) (bp + s) ns).largest_free,
            brk := (remove_block (remove_block st (bp - ps) ps) (bp + s) ns).brk,
            cap := (remove_block (remove_block st (bp - ps) ps) (bp + s) ns).cap }
          (bp - ps) (s + ps + ns)).mem q =
        (remove_block (remove_block st (bp - ps) ps) (bp + s) ns).mem q := by
      intro q hq
      have hqA : q ∈ bP :: listCells (lP1 ++ (bp - ps) :: lP2) := by
        rcases hq with rfl | h
        · exact List.mem_cons_self _ _
        · exact List.mem_cons_of_mem _ (cells_subset_mid h)
      have h1 : q ≠ bM :=
        fun he => hAC q hqA (by rw [he]; exact List.mem_cons_self _ _)
      have h2 : q ≠ bp - ps := by
        rcases hq with rfl | h
        · exact fun he => hbPnot (by rw [he]; exact hPmemA)
        · exact fun he => hPnot (by rw [← he]; exact h)
      have h3 : q ≠ bp - ps + PTR_SIZE := by
        rcases hq with rfl | h
        · exact fun he => hbPnot (by rw [he]; exact hP4memA)
        · exact fun he => hP4not (by rw [← he]; exact h)
      have h4 : ∀ c ∈ lM, q ≠ c + PTR_SIZE := fun c hc he => hAC q hqA
        (by rw [he]; exact List.mem_cons_of_mem _ (mem_listCells_link hc))
      rw [prepend_block_frame_enc
        { mem := PUT (PUT
                  (remove_block (remove_block st (bp - ps) ps) (bp + s) ns).mem
                  (HDRP (bp - ps)) (PACK (s + ps + ns) 0)) (bp + s + ns - DSIZE)
                  (PACK (s + ps + ns) 0),
                heap_lo := (remove_block (remove_block st (bp - ps) ps) (bp + s) ns).heap_lo,
                bin_hi := (remove_block (remove_block st (bp - ps) ps) (bp + s) ns).bin_hi,
                block_lo := (remove_block (remove_block st (bp - ps) ps) (bp + s) ns).block_lo,
                largest_free :=
                  (remove_block (remove_block st (bp - ps) ps) (bp + s) ns).largest_free,
                brk := (remove_block (remove_block st (bp - ps) ps) (bp + s) ns).brk,
                cap := (remove_block (remove_block st (bp - ps) ps) (bp + s) ns).cap }
        bM (bp - ps) (s + ps + ns) lM e_Mx hbinM q h1 h2 h3 h4]
      show PUT (PUT (remove_block (remove_block st (bp - ps) ps) (bp + s) ns).mem
          (HDRP (bp - ps)) (PACK (s + ps + ns) 0)) (bp + s + ns - DSIZE)
          (PACK (s + ps + ns) 0) q =
        (remove_block (remove_block st (bp - ps) ps) (bp + s) ns).mem q
      rw [PUT_read_other _ (bp + s + ns - DSIZE) _ q
          (fun he => htagA (bp + s + ns - DSIZE) (by simp) (by rw [← he]; exact hqA)),
        PUT_read_other _ (HDRP (bp - ps)) _ q
          (fun he => htagA (HDRP (bp - ps)) (by simp) (by rw [← he]; exact hqA))]
    rw [encBinD_frame (ffin bP (Or.inl rfl)) (fun c hc => ffin c (Or.inr hc))]
    exact e_P2
  · obtain ⟨hNnot, hN4not, _⟩ := nodup_cells_mid (List.nodup_cons.mp hNdB).2
    have ffin : ∀ q, (q = bN ∨ q ∈ listCells (lN1 ++ lN2)) →
        (prepend_block
          { mem := PUT (PUT
              (remove_block (remove_block st (bp - ps) ps) (bp + s) ns).mem
              (HDRP (bp - ps)) (PACK (s + ps + ns) 0)) (bp + s + ns - DSIZE)
              (PACK (s + ps + ns) 0),
            heap_lo := (remove_block (remove_block st (bp - ps) ps) (bp + s) ns).heap_lo,
            bin_hi := (remove_block (remove_block st (bp - ps) ps) (bp + s) ns).bin_hi,
            block_lo := (remove_block (remove_block st (bp - ps) ps) (bp + s) ns).block_lo,
            largest_free :=
              (remove_block (remove_block st (bp - ps) ps) (bp + s) ns).largest_free,
            brk := (remove_block (remove_block st (bp - ps) ps) (bp + s) ns).brk,
            cap := (remove_block (remove_block st (bp - ps) ps) (bp + s) ns).cap }
          (bp - ps) (s + ps + ns)).mem q =
        (remove_block (remove_block st (bp - ps) ps) (bp + s) ns).mem q := by
      intro q hq
      have hqB : q ∈ bN :: listCells (lN1 ++ (bp + s) :: lN2) := by
        rcases hq with rfl | h
        · exact List.mem_cons_self _ _
        · exact List.mem_cons_of_mem _ (cells_subset_mid h)
      have h1 : q ≠ bM := fun he => hBC q hqB (by rw [he]; exact List.mem_cons_self _ _)
      have h2 : q ≠ bp - ps := fun he => hAB (bp - ps)
        (List.mem_cons_of_mem _ hPmemA) (by rw [← he]; exact hqB)
      have h3 : q ≠ bp - ps + PTR_SIZE := fun he => hAB (bp - ps + PTR_SIZE)
        (List.mem_cons_of_mem _ hP4memA) (by rw [← he]; exact hqB)
      have h4 : ∀ c ∈ lM, q ≠ c + PTR_SIZE := fun c hc he => hBC q hqB
        (by rw [he]; exact List.mem_cons_of_mem _ (mem_listCells_link hc))
      rw [prepend_block_frame_enc
        { mem := PUT (PUT
                  (remove_block (remove_block st (bp - ps) ps) (bp + s) ns).mem
                  (HDRP (bp - ps)) (PACK (s + ps + ns) 0)) (bp + s + ns - DSIZE)
                  (PACK (s + ps + ns) 0),
                heap_lo := (remove_block (remove_block st (bp - ps) ps) (bp + s) ns).heap_lo,
                bin_hi := (remove_block (remove_block st (bp - ps) ps) (bp + s) ns).bin_hi,
                block_lo := (remove_block (remove_block st (bp - ps) ps) (bp + s) ns).block_lo,
                largest_free :=
                  (remove_block (remove_block st (bp - ps) ps) (bp + s) ns).largest_free,
                brk := (remove_block (remove_block st (bp - ps) ps) (bp + s) ns).brk,
                cap := (remove_block (remove_block st (bp - ps) ps) (bp + s) ns).cap }
        bM (bp - ps) (s + ps + ns) lM e_Mx hbinM q h1 h2 h3 h4]
      show PUT (PUT (remove_block (remove_block st (bp - ps) ps) (bp + s) ns).mem
          (HDRP (bp - ps)) (PACK (s + ps + ns) 0)) (bp + s + ns - DSIZE)
          (PACK (s + ps + ns) 0) q =
        (remove_block (remove_block st (bp - ps) ps) (bp + s) ns).mem q
      rw [PUT_read_other _ (bp + s + ns - DSIZE) _ q
          (fun he => htagB (bp + s + ns - DSIZE) (by simp) (by rw [← he]; exact hqB)),
        PUT_read_other _ (HDRP (bp - ps)) _ q
          (fun he => htagB (HDRP (bp - ps)) (by simp) (by rw [← he]; exact hqB))]
    rw [encBinD_frame (ffin bN (Or.inl rfl)) (fun c hc => ffin c (Or.inr hc))]
    exact e_N2
  · exact prepend_block_enc
      { mem := PUT (PUT
                (remove_block (remove_block st (bp - ps) ps) (bp + s) ns).mem
                (HDRP (bp - ps)) (PACK (s + ps + ns) 0)) (bp + s + ns - DSIZE)
                (PACK (s + ps + ns) 0),
              heap_lo := (remove_block (remove_block st (bp - ps) ps) (bp + s) ns).heap_lo,
              bin_hi := (remove_block (remove_block st (bp - ps) ps) (bp + s) ns).bin_hi,
              block_lo := (remove_block (remove_block st (bp - ps) ps) (bp + s) ns).block_lo,
              largest_free :=
                (remove_block (remove_block st (bp - ps) ps) (bp + s) ns).largest_free,
              brk := (remove_block (remove_block st (bp - ps) ps) (bp + s) ns).brk,
              cap := (remove_block (remove_block st (bp - ps) ps) (bp + s) ns).cap }
      bM (bp - ps) (s + ps + ns) lM e_Mx hNodX hSX hP0 hbinM

/-- Concrete memory for exercising `coalesce` on a block with free neighbors:
bin 0 holds the 16-byte free block at 1000, bin 1 holds the 136-byte free
block at 1128, bin 2 is empty, and the 112-byte block at 1016 sits between
them. -/
def wmemC6 : Mem := fun q =>
  if q = 0 then 1000 else if q = 4 then 1128 else if q = 996 then 16
  else if q = 1008 then 16 else if q = 1012 then 112
  else if q = 1124 then 136 else 0

def wstC6 : AState :=
  { mem := wmemC6, heap_lo := 0, bin_hi := 28, block_lo := 36,
    largest_free := 0, brk := 2000, cap := 100000 }

theorem C6_witness :
    GET_SIZE wstC6.mem (HDRP 1016) = 112 ∧
    ((coalesce wstC6 1016).1 = 1016 - 16 ∧
      (coalesce wstC6 1016).2.mem (HDRP (1016 - 16)) = PACK (112 + 16 + 136) 0 ∧
      (coalesce wstC6 1016).2.mem (1016 + 112 + 136 - DSIZE) =
        PACK (112 + 16 + 136) 0 ∧
      encBinD (coalesce wstC6 1016).2.mem 0 ([] ++ []) = true ∧
      encBinD (coalesce wstC6 1016).2.mem 4 ([] ++ []) = true ∧
      encBinD (coalesce wstC6 1016).2.mem 8 ((1016 - 16) :: []) = true) :=
  ⟨by decide,
    C6_coalesce_both_free wstC6 1016 112 16 136 0 4 8 [] [] [] [] []
      (by decide) (by decide) (by decide) (by decide) (by decide) (by decide)
      (by decide) (by decide) (by decide) (by decide) (by decide) (by decide)
      (by decide) (by decide) (by decide) (by decide) (by decide) (by decide)
      (by decide) (by decide) (by decide) (by decide) (by decide) (by decide)
      (by decide) (by decide) (by decide) (by decide) (by decide)⟩




/-! ## Claim C5: payload preservation across the resize paths -/

/-- Non-growth path of `mm_realloc` (adjusted size at most the old size):
the call returns `bp` with the state untouched, so the payload is trivially
preserved. -/
theorem realloc_inplace_payload (st : AState) (fuel bp n : Nat)
    (hbp : bp ≠ 0) (hn : n ≠ 0)
    (hle : adjRealloc n ≤ GET_SIZE st.mem (HDRP bp)) :
    mm_realloc st fuel bp n = (some bp, st) := by
  unfold mm_realloc
  rcases Nat.eq_or_lt_of_le hle with he | hl
  · simp [hbp, hn, he]
  · have hne : ¬ (adjRealloc n = GET_SIZE st.mem (HDRP bp)) := by omega
    simp [hbp, hn, hne, hl]

/-- Absorb-next path of `mm_realloc`: the block keeps its address and every
old payload cell keeps its value (the writes are the merged header/footer and
the unlink cells of the next block, all outside the payload). -/
theorem realloc_absorb_next_payload (st : AState) (fuel bp n : Nat)
    (hbp : bp ≠ 0) (hn : n ≠ 0) (hbp8 : 8 ≤ bp)
    (hold16 : 16 ≤ GET_SIZE st.mem (HDRP bp))
    (hgrow : GET_SIZE st.mem (HDRP bp) < adjRealloc n)
    (hnext_free : GET_ALLOC st.mem (HDRP (NEXT_BLKP st.mem bp)) = 0)
    (hprev_alloc : GET_ALLOC st.mem (HDRP (PREV_BLKP st.mem bp)) ≠ 0)
    (hfit : adjRealloc n ≤ GET_SIZE st.mem (HDRP bp) +
      GET_SIZE st.mem (HDRP (NEXT_BLKP st.mem bp)))
    (hf1 : HDRP bp ∉ removeWriteCells st (NEXT_BLKP st.mem bp))
    (hf2 : HDRP (NEXT_BLKP st.mem bp) ∉ removeWriteCells st (NEXT_BLKP st.mem bp))
    (hfp : ∀ i, i < GET_SIZE st.mem (HDRP bp) - DSIZE →
      bp + i ∉ removeWriteCells st (NEXT_BLKP st.mem bp))
    (hsz : GET_SIZE st.mem (HDRP bp) +
      GET_SIZE st.mem (HDRP (NEXT_BLKP st.mem bp)) + 1 < M32) :
    (mm_realloc st fuel bp n).1 = some bp ∧
      GET_SIZE ((mm_realloc st fuel bp n).2).mem (HDRP bp) =
        GET_SIZE st.mem (HDRP bp) + GET_SIZE st.mem (HDRP (NEXT_BLKP st.mem bp)) ∧
      ∀ i, i < GET_SIZE st.mem (HDRP bp) - DSIZE →
        ((mm_realloc st fuel bp n).2).mem (bp + i) = st.mem (bp + i) := by
  have hdvd1 := GET_SIZE_dvd st.mem (HDRP bp)
  have hdvd2 := GET_SIZE_dvd st.mem (HDRP (NEXT_BLKP st.mem bp))
  have hne : ¬ (adjRealloc n = GET_SIZE st.mem (HDRP bp)) := by omega
  have hnl : ¬ (adjRealloc n < GET_SIZE st.mem (HDRP bp)) := by omega
  have e1 : (remove_block st (NEXT_BLKP st.mem bp)
      (GET_SIZE st.mem (HDRP (NEXT_BLKP st.mem bp)))).mem (HDRP bp) =
      st.mem (HDRP bp) :=
    remove_block_frame _ _ _ _ hf1
  have e2 : (remove_block st (NEXT_BLKP st.mem bp)
      (GET_SIZE st.mem (HDRP (NEXT_BLKP st.mem bp)))).mem
        (HDRP (NEXT_BLKP st.mem bp)) =
      st.mem (HDRP (NEXT_BLKP st.mem bp)) :=
    remove_block_frame _ _ _ _ hf2
  have eN : NEXT_BLKP (remove_block st (NEXT_BLKP st.mem bp)
      (GET_SIZE st.mem (HDRP (NEXT_BLKP st.mem bp)))).mem bp =
      NEXT_BLKP st.mem bp := NEXT_BLKP_congr bp e1
  have e2s : GET_SIZE (remove_block st (NEXT_BLKP st.mem bp)
      (GET_SIZE st.mem (HDRP (NEXT_BLKP st.mem bp)))).mem
        (HDRP (NEXT_BLKP st.mem bp)) =
      GET_SIZE st.mem (HDRP (NEXT_BLKP st.mem bp)) := GET_SIZE_congr _ e2
  unfold mm_realloc
  simp only [if_neg hbp, if_neg hn, if_neg hne, if_neg hnl, hnext_free, hprev_alloc,
    hfit, eq_self_iff_true, ne_eq, not_false_iff, true_and, and_true, if_true, ite_true]
  rw [eN, e2s]
  refine ⟨GET_SIZE_PUT_HDR_FTR _ bp _ 1 (Nat.dvd_add hdvd1 hdvd2) (by omega) hbp8
    (by omega) hsz, ?_⟩
  intro i hi
  unfold DSIZE at hi
  show PUT_HDR_FTR (remove_block st (NEXT_BLKP st.mem bp)
      (GET_SIZE st.mem (HDRP (NEXT_BLKP st.mem bp)))).mem bp
      (GET_SIZE st.mem (HDRP bp) + GET_SIZE st.mem (HDRP (NEXT_BLKP st.mem bp))) 1
      (bp + i) = st.mem (bp + i)
  rw [PUT_HDR_FTR_frame _ _ _ _ _ (Nat.dvd_add hdvd1 hdvd2) (by omega) hsz
    (by unfold HDRP WSIZE; omega) (by unfold DSIZE; omega)]
  exact remove_block_frame _ _ _ _ (hfp i (by unfold DSIZE; omega))

/-- Absorb-prev path of `mm_realloc`: the payload moves down by the previous
block's size via the overlapping `memmove`, and every old payload cell is
copied intact (the merged tags and the unlink cells all avoid the source
payload). -/
theorem realloc_absorb_prev_payload (st : AState) (fuel bp n s ps : Nat)
    (hbp : bp ≠ 0) (hn : n ≠ 0)
    (hs : GET_SIZE st.mem (HDRP bp) = s)
    (hpfs : GET_SIZE st.mem (bp - DSIZE) = ps)
    (hph : GET_SIZE st.mem (HDRP (bp - ps)) = ps)
    (hs16 : 16 ≤ s) (hps16 : 16 ≤ ps) (hbpps : ps + 8 ≤ bp)
    (hgrow : s < adjRealloc n) (hfit : adjRealloc n ≤ s + ps)
    (hna : GET_ALLOC st.mem (HDRP (NEXT_BLKP st.mem bp)) ≠ 0)
    (hpa : GET_ALLOC st.mem (HDRP (bp - ps)) = 0)
    (hrm1 : bp - DSIZE ∉ removeWriteCells st (bp - ps))
    (hrm2 : HDRP (bp - ps) ∉ removeWriteCells st (bp - ps))
    (hrmp : ∀ i, i < s - DSIZE → bp + i ∉ removeWriteCells st (bp - ps))
    (hszM : s + ps + 1 < M32) :
    (mm_realloc st fuel bp n).1 = some (bp - ps) ∧
      GET_SIZE ((mm_realloc st fuel bp n).2).mem (HDRP (bp - ps)) = s + ps ∧
      ∀ i, i < s - DSIZE →
        ((mm_realloc st fuel bp n).2).mem (bp - ps + i) = st.mem (bp + i) := by
  have hdvd1 := GET_SIZE_dvd st.mem (HDRP bp)
  have hdvd2 := GET_SIZE_dvd st.mem (HDRP (bp - ps))
  rw [hs] at hdvd1
  rw [hph] at hdvd2
  have hP : PREV_BLKP st.mem bp = bp - ps := by
    unfold PREV_BLKP
    rw [hpfs]
  have e1 : (remove_block st (bp - ps) ps).mem (bp - DSIZE) =
      st.mem (bp - DSIZE) := remove_block_frame _ _ _ _ hrm1
  have e2 : (remove_block st (bp - ps) ps).mem (HDRP (bp - ps)) =
      st.mem (HDRP (bp - ps)) := remove_block_frame _ _ _ _ hrm2
  have eP1 : PREV_BLKP (remove_block st (bp - ps) ps).mem bp = bp - ps := by
    rw [PREV_BLKP_congr bp e1]
    exact hP
  have eS : GET_SIZE (remove_block st (bp - ps) ps).mem (HDRP (bp - ps)) = ps :=
    (GET_SIZE_congr _ e2).trans hph
  unfold mm_realloc
  simp only [if_neg hbp, if_neg hn, hP, hph, hpa, hs,
    eq_self_iff_true, ne_eq, not_true, false_and, and_false, if_false, ite_false]
  split_ifs with h1 h2 h3 h4
  · exact absurd h1 (by omega)
  · exact absurd h2 (by omega)
  · rw [eP1, eS]
    have hhd : memmove (PUT_HDR_FTR (remove_block st (bp - ps) ps).mem (bp - ps)
        (s + ps) 1) (bp - ps) bp s (HDRP (bp - ps)) =
        PUT_HDR_FTR (remove_block st (bp - ps) ps).mem (bp - ps) (s + ps) 1
          (HDRP (bp - ps)) := by
      unfold memmove
      rw [if_neg (by unfold HDRP WSIZE; omega)]
    refine ⟨rfl, ?_, ?_⟩
    · show GET_SIZE (memmove (PUT_HDR_FTR (remove_block st (bp - ps) ps).mem
        (bp - ps) (s + ps) 1) (bp - ps) bp s) (HDRP (bp - ps)) = s + ps
      rw [GET_SIZE_congr _ hhd]
      exact GET_SIZE_PUT_HDR_FTR _ _ _ 1 (Nat.dvd_add hdvd1 hdvd2) (by omega)
        (by omega) (by omega) hszM
    intro i hi
    unfold DSIZE at hi
    show memmove (PUT_HDR_FTR (remove_block st (bp - ps) ps).mem (bp - ps)
        (s + ps) 1) (bp - ps) bp s (bp - ps + i) = st.mem (bp + i)
    unfold memmove
    rw [if_pos ⟨by omega, by omega⟩]
    have harg : bp + (bp - ps + i - (bp - ps)) = bp + i := by omega
    rw [harg]
    rw [PUT_HDR_FTR_frame _ _ _ _ _ (Nat.dvd_add hdvd1 hdvd2) (by omega) hszM
      (by unfold HDRP WSIZE; omega) (by unfold DSIZE; omega)]
    exact remove_block_frame _ _ _ _ (hrmp i (by unfold DSIZE; omega))
  · exact absurd h4.1 hna
  · exact absurd ⟨hna, trivial, hfit⟩ h3

/-- The memory after the relocate path of `mm_realloc` marks the found block
allocated (first write of the path). -/
def relocM1 (st : AState) (nb : Nat) : Mem :=
  PUT_HDR_FTR st.mem nb (GET_SIZE st.mem (HDRP nb)) 1

/-- The state after the relocate path unlinks the found block. -/
def relocStB (st : AState) (nb : Nat) : AState :=
  remove_block { st with mem := relocM1 st nb } nb
    (GET_SIZE (relocM1 st nb) (HDRP nb))

/-- The memory after the relocate path writes free tags on the old block. -/
def relocM2 (st : AState) (bp nb : Nat) : Mem :=
  PUT_HDR_FTR (relocStB st nb).mem bp (GET_SIZE st.mem (HDRP bp)) 0

/-- The memory after the relocate path copies the old payload to the new
block. -/
def relocM3 (st : AState) (bp nb : Nat) : Mem :=
  memmove (relocM2 st bp nb) nb bp (GET_SIZE st.mem (HDRP bp) - DSIZE)

/-- The state handed to the final `coalesce(bp)` of the relocate path. -/
def relocPre (st : AState) (bp nb : Nat) : AState :=
  { relocStB st nb with mem := relocM3 st bp nb }

/-- Relocate-and-copy path of `mm_realloc` (both neighbors of the old block
allocated, `find_fit` returning a block): the returned pointer is the found
block and its payload prefix of the old payload's length carries the old
payload values cell for cell. -/
theorem realloc_reloc_payload (st : AState) (fuel bp n nb : Nat)
    (hbp : bp ≠ 0) (hn : n ≠ 0) (hbp8 : 8 ≤ bp) (hnb8 : 8 ≤ nb)
    (hold16 : 16 ≤ GET_SIZE st.mem (HDRP bp))
    (hgrow : GET_SIZE st.mem (HDRP bp) < adjRealloc n)
    (hpa : GET_ALLOC st.mem (HDRP (PREV_BLKP st.mem bp)) ≠ 0)
    (hna : GET_ALLOC st.mem (HDRP (NEXT_BLKP st.mem bp)) ≠ 0)
    (hfit : find_fit st fuel (adjRealloc n) = some nb)
    (hw16 : 16 ≤ GET_SIZE st.mem (HDRP nb))
    (hwM : GET_SIZE st.mem (HDRP nb) + 1 < M32)
    (hsM : GET_SIZE st.mem (HDRP bp) < M32)
    (hdisj : ∀ i, i < GET_SIZE st.mem (HDRP bp) - DSIZE →
      bp + i ≠ HDRP nb ∧ bp + i ≠ nb + GET_SIZE st.mem (HDRP nb) - DSIZE)
    (hrm : ∀ i, i < GET_SIZE st.mem (HDRP bp) - DSIZE →
      bp + i ∉ removeWriteCells { st with mem := relocM1 st nb } nb)
    (hpa3 : GET_ALLOC (relocM3 st bp nb)
      (FTRP (relocM3 st bp nb) (PREV_BLKP (relocM3 st bp nb) bp)) ≠ 0)
    (hna3 : GET_ALLOC (relocM3 st bp nb)
      (HDRP (NEXT_BLKP (relocM3 st bp nb) bp)) ≠ 0)
    (hpre : ∀ i, i < GET_SIZE st.mem (HDRP bp) - DSIZE →
      nb + i ∉ prependWriteCells (relocPre st bp nb) bp
        (GET_SIZE (relocM3 st bp nb) (HDRP bp))) :
    (mm_realloc st fuel bp n).1 = some nb ∧
      ∀ i, i < GET_SIZE st.mem (HDRP bp) - DSIZE →
        ((mm_realloc st fuel bp n).2).mem (nb + i) = st.mem (bp + i) := by
  have hdvds := GET_SIZE_dvd st.mem (HDRP bp)
  have hdvdw := GET_SIZE_dvd st.mem (HDRP nb)
  have hne : ¬ (adjRealloc n = GET_SIZE st.mem (HDRP bp)) := by omega
  have hnl : ¬ (adjRealloc n < GET_SIZE st.mem (HDRP bp)) := by omega
  have hfinal : ∀ i, i < GET_SIZE st.mem (HDRP bp) - DSIZE →
      ((coalesce (relocPre st bp nb) bp).2).mem (nb + i) = st.mem (bp + i) := by
    intro i hi
    unfold DSIZE at hi
    unfold coalesce relocPre
    dsimp only
    rw [if_pos ⟨hpa3, hna3⟩]
    dsimp only
    rw [prepend_block_frame _ _ _ _
      (show nb + i ∉ prependWriteCells
        { mem := relocM3 st bp nb, heap_lo := (relocStB st nb).heap_lo,
          bin_hi := (relocStB st nb).bin_hi,
          block_lo := (relocStB st nb).block_lo,
          largest_free := (relocStB st nb).largest_free,
          brk := (relocStB st nb).brk, cap := (relocStB st nb).cap }
        bp (GET_SIZE (relocM3 st bp nb) (HDRP bp)) from hpre i hi)]
    show relocM3 st bp nb (nb + i) = st.mem (bp + i)
    unfold relocM3 memmove
    rw [if_pos ⟨by omega, by unfold DSIZE; omega⟩]
    have harg : bp + (nb + i - nb) = bp + i := by omega
    rw [harg]
    show relocM2 st bp nb (bp + i) = st.mem (bp + i)
    unfold relocM2
    rw [PUT_HDR_FTR_frame _ _ _ _ _ hdvds (by omega) (by omega)
      (by unfold HDRP WSIZE; omega) (by unfold DSIZE; omega)]
    show (relocStB st nb).mem (bp + i) = st.mem (bp + i)
    unfold relocStB
    rw [remove_block_frame _ _ _ _ (hrm i (by unfold DSIZE; omega))]
    show relocM1 st nb (bp + i) = st.mem (bp + i)
    unfold relocM1
    rw [PUT_HDR_FTR_frame _ _ _ _ _ hdvdw (by omega) hwM
      (hdisj i (by unfold DSIZE; omega)).1 (hdisj i (by unfold DSIZE; omega)).2]
  unfold mm_realloc
  simp only [if_neg hbp, if_neg hn, if_neg hne, if_neg hnl, hfit]
  split_ifs with h1 h2 h3
  · exact absurd h1.1 hna
  · exact absurd h2.2.1 hpa
  · exact absurd h3.1 hna
  · exact ⟨rfl, hfinal⟩

/-- Concrete heap exercising the absorb-prev path: a free 16-byte block at
1000 (on bin 0), an allocated 24-byte block at 1016 with payload
111/222/333/444, and an allocated neighbor at 1040. -/
def wmemC5p : Mem := fun q =>
  if q = 0 then 1000
  else if q = 996 then 16 else if q = 1008 then 16
  else if q = 1012 then 25 else if q = 1032 then 25
  else if q = 1036 then 17
  else if q = 1016 then 111 else if q = 1020 then 222
  else if q = 1024 then 333 else if q = 1028 then 444 else 0

def wstC5p : AState :=
  { mem := wmemC5p, heap_lo := 0, bin_hi := 28, block_lo := 36,
    largest_free := 0, brk := 2100, cap := 100000 }

/-- Concrete heap exercising the relocate path: the allocated 24-byte block
at 1016 has allocated neighbors on both sides, and a free 48-byte block at
2000 sits on bin 0. -/
def wmemC5r : Mem := fun q =>
  if q = 0 then 2000
  else if q = 996 then 17 else if q = 1008 then 17
  else if q = 1012 then 25 else if q = 1032 then 25
  else if q = 1036 then 17
  else if q = 1016 then 111 else if q = 1020 then 222
  else if q = 1024 then 333 else if q = 1028 then 444
  else if q = 1996 then 48 else if q = 2040 then 48 else 0

def wstC5r : AState :=
  { mem := wmemC5r, heap_lo := 0, bin_hi := 28, block_lo := 36,
    largest_free := 0, brk := 2100, cap := 100000 }

/-- In the 32-bit-safe range the adjusted request size covers the request
plus header and footer, so a block of at least the adjusted size holds at
least `n` usable payload bytes. -/
theorem adjRealloc_covers (n : Nat) (h : n + 15 < M32) :
    n + DSIZE ≤ adjRealloc n := by
  unfold adjRealloc LIST_OVERHEAD DSIZE M32 at *
  split_ifs <;> omega

/-- C5: a successful `resize(p, n)` preserves the old payload, across all
four paths.  Non-growth calls return `p` with the state untouched; the
absorb-next path keeps the payload in place under the merged tags; the
absorb-prev path moves it down by the previous block's size with the
overlapping `memmove`; the relocate path copies it into the found block.
In each growth conjunct the hypotheses pin the path taken and state the
well-formed-heap disjointness facts (unlink writes, tag writes and the new
free-list links avoid the payload cells). -/
theorem C5_payload :
    (∀ n, n + 15 < M32 → n + DSIZE ≤ adjRealloc n) ∧
    (∀ st fuel bp n, bp ≠ 0 → n ≠ 0 →
      adjRealloc n ≤ GET_SIZE st.mem (HDRP bp) →
      mm_realloc st fuel bp n = (some bp, st)) ∧
    (∀ st fuel bp n, bp ≠ 0 → n ≠ 0 → 8 ≤ bp →
      16 ≤ GET_SIZE st.mem (HDRP bp) →
      GET_SIZE st.mem (HDRP bp) < adjRealloc n →
      GET_ALLOC st.mem (HDRP (NEXT_BLKP st.mem bp)) = 0 →
      GET_ALLOC st.mem (HDRP (PREV_BLKP st.mem bp)) ≠ 0 →
      adjRealloc n ≤ GET_SIZE st.mem (HDRP bp) +
        GET_SIZE st.mem (HDRP (NEXT_BLKP st.mem bp)) →
      HDRP bp ∉ removeWriteCells st (NEXT_BLKP st.mem bp) →
      HDRP (NEXT_BLKP st.mem bp) ∉ removeWriteCells st (NEXT_BLKP st.mem bp) →
      (∀ i, i < GET_SIZE st.mem (HDRP bp) - DSIZE →
        bp + i ∉ removeWriteCells st (NEXT_BLKP st.mem bp)) →
      GET_SIZE st.mem (HDRP bp) +
        GET_SIZE st.mem (HDRP (NEXT_BLKP st.mem bp)) + 1 < M32 →
      (mm_realloc st fuel bp n).1 = some bp ∧
        GET_SIZE ((mm_realloc st fuel bp n).2).mem (HDRP bp) =
          GET_SIZE st.mem (HDRP bp) +
            GET_SIZE st.mem (HDRP (NEXT_BLKP st.mem bp)) ∧
        ∀ i, i < GET_SIZE st.mem (HDRP bp) - DSIZE →
          ((mm_realloc st fuel bp n).2).mem (bp + i) = st.mem (bp + i)) ∧
    (∀ st fuel bp n s ps, bp ≠ 0 → n ≠ 0 →
      GET_SIZE st.mem (HDRP bp) = s →
      GET_SIZE st.mem (bp - DSIZE) = ps →
      GET_SIZE st.mem (HDRP (bp - ps)) = ps →
      16 ≤ s → 16 ≤ ps → ps + 8 ≤ bp →
      s < adjRealloc n → adjRealloc n ≤ s + ps →
      GET_ALLOC st.mem (HDRP (NEXT_BLKP st.mem bp)) ≠ 0 →
      GET_ALLOC st.mem (HDRP (bp - ps)) = 0 →
      bp - DSIZE ∉ removeWriteCells st (bp - ps) →
      HDRP (bp - ps) ∉ removeWriteCells st (bp - ps) →
      (∀ i, i < s - DSIZE → bp + i ∉ removeWriteCells st (bp - ps)) →
      s + ps + 1 < M32 →
      (mm_realloc st fuel bp n).1 = some (bp - ps) ∧
        GET_SIZE ((mm_realloc st fuel bp n).2).mem (HDRP (bp - ps)) = s + ps ∧
        ∀ i, i < s - DSIZE →
          ((mm_realloc st fuel bp n).2).mem (bp - ps + i) = st.mem (bp + i)) ∧
    (∀ st fuel bp n nb, bp ≠ 0 → n ≠ 0 → 8 ≤ bp → 8 ≤ nb →
      16 ≤ GET_SIZE st.mem (HDRP bp) →
      GET_SIZE st.mem (HDRP bp) < adjRealloc n →
      GET_ALLOC st.mem (HDRP (PREV_BLKP st.mem bp)) ≠ 0 →
      GET_ALLOC st.mem (HDRP (NEXT_BLKP st.mem bp)) ≠ 0 →
      find_fit st fuel (adjRealloc n) = some nb →
      16 ≤ GET_SIZE st.mem (HDRP nb) →
      GET_SIZE st.mem (HDRP nb) + 1 < M32 →
      GET_SIZE st.mem (HDRP bp) < M32 →
      (∀ i, i < GET_SIZE st.mem (HDRP bp) - DSIZE →
        bp + i ≠ HDRP nb ∧ bp + i ≠ nb + GET_SIZE st.mem (HDRP nb) - DSIZE) →
      (∀ i, i < GET_SIZE st.mem (HDRP bp) - DSIZE →
        bp + i ∉ removeWriteCells { st with mem := relocM1 st nb } nb) →
      GET_ALLOC (relocM3 st bp nb)
        (FTRP (relocM3 st bp nb) (PREV_BLKP (relocM3 st bp nb) bp)) ≠ 0 →
      GET_ALLOC (relocM3 st bp nb)
        (HDRP (NEXT_BLKP (relocM3 st bp nb) bp)) ≠ 0 →
      (∀ i, i < GET_SIZE st.mem (HDRP bp) - DSIZE →
        nb + i ∉ prependWriteCells (relocPre st bp nb) bp
          (GET_SIZE (relocM3 st bp nb) (HDRP bp))) →
      (mm_realloc st fuel bp n).1 = some nb ∧
        ∀ i, i < GET_SIZE st.mem (HDRP bp) - DSIZE →
          ((mm_realloc st fuel bp n).2).mem (nb + i) = st.mem (bp + i)) :=
  ⟨adjRealloc_covers, realloc_inplace_payload, realloc_absorb_next_payload,
    realloc_absorb_prev_payload, realloc_reloc_payload⟩

/-- C5 witness: all four paths exercised on concrete heaps — a shrink on
`stM32`, the absorb-next growth on `stM32`, the absorb-prev growth on
`wstC5p`, and the relocate-and-copy on `wstC5r` — together with the
adjusted-size coverage bound at 20. -/
theorem C5_witness :
    (20 + DSIZE ≤ adjRealloc 20) ∧
    mm_realloc stM32 64 56 20 = (some 56, stM32) ∧
    ((mm_realloc stM32 64 56 60).1 = some 56 ∧
      GET_SIZE ((mm_realloc stM32 64 56 60).2).mem (HDRP 56) =
        GET_SIZE stM32.mem (HDRP 56) +
          GET_SIZE stM32.mem (HDRP (NEXT_BLKP stM32.mem 56)) ∧
      ∀ i, i < GET_SIZE stM32.mem (HDRP 56) - DSIZE →
        ((mm_realloc stM32 64 56 60).2).mem (56 + i) = stM32.mem (56 + i)) ∧
    ((mm_realloc wstC5p 64 1016 20).1 = some (1016 - 16) ∧
      GET_SIZE ((mm_realloc wstC5p 64 1016 20).2).mem (HDRP (1016 - 16)) =
        24 + 16 ∧
      ∀ i, i < 24 - DSIZE →
        ((mm_realloc wstC5p 64 1016 20).2).mem (1016 - 16 + i) =
          wstC5p.mem (1016 + i)) ∧
    ((mm_realloc wstC5r 64 1016 25).1 = some 2000 ∧
      ∀ i, i < GET_SIZE wstC5r.mem (HDRP 1016) - DSIZE →
        ((mm_realloc wstC5r 64 1016 25).2).mem (2000 + i) =
          wstC5r.mem (1016 + i)) :=
  ⟨C5_payload.1 20 (by decide),
    C5_payload.2.1 stM32 64 56 20 (by decide) (by decide) (by decide),
    C5_payload.2.2.1 stM32 64 56 60 (by decide) (by decide) (by decide)
      (by decide) (by decide) (by decide) (by decide) (by decide) (by decide)
      (by decide) (by decide) (by decide),
    C5_payload.2.2.2.1 wstC5p 64 1016 20 24 16 (by decide) (by decide)
      (by decide) (by decide) (by decide) (by decide) (by decide) (by decide)
      (by decide) (by decide) (by decide) (by decide) (by decide) (by decide)
      (by decide) (by decide),
    C5_payload.2.2.2.2 wstC5r 64 1016 25 2000 (by decide) (by decide)
      (by decide) (by decide) (by decide) (by decide) (by decide) (by decide)
      (by decide) (by decide) (by decide) (by decide) (by decide) (by decide)
      (by decide) (by decide) (by decide)⟩

/-- C5 counterexample: the claim promises at least `n` usable bytes from any
successful resize for every `n > 0`, but the unguarded 32-bit size
arithmetic wraps: `resize(p, 4294967281)` on a 40-byte block computes
adjusted size 0, succeeds in place, and returns a block of 40 bytes —
far fewer than `n` usable bytes. -/
theorem C5_counterexample :
    (mm_realloc stM32 64 56 4294967281).1 = some 56 ∧
    GET_SIZE ((mm_realloc stM32 64 56 4294967281).2).mem (HDRP 56) = 40 ∧
    40 < 4294967281 := by decide

/-! ## Write footprints of the allocator's memory writers -/

/-- The cells written by `coalesce`, branch for branch: unlink cells of the
removed neighbors, the merged boundary tags, and the free-list link cells of
the prepend. -/
def coalesceWriteCells (st : AState) (bp : Nat) : List Nat :=
  let m := st.mem
  let prev_alloc := GET_ALLOC m (FTRP m (PREV_BLKP m bp))
  let next_alloc := GET_ALLOC m (HDRP (NEXT_BLKP m bp))
  let size := GET_SIZE m (HDRP bp)
  let prev_size := GET_SIZE m (HDRP (PREV_BLKP m bp))
  let next_size := GET_SIZE m (HDRP (NEXT_BLKP m bp))
  if prev_alloc ≠ 0 ∧ next_alloc ≠ 0 then
    prependWriteCells st bp size
  else if prev_alloc ≠ 0 ∧ next_alloc = 0 then
    let size1 := size + next_size
    let st1 := remove_block st (NEXT_BLKP m bp) next_size
    let st2 := prepend_block st1 bp size1
    removeWriteCells st (NEXT_BLKP m bp) ++ prependWriteCells st1 bp size1 ++
      [HDRP bp, FTRP (PUT st2.mem (HDRP bp) (PACK size1 0)) bp]
  else if prev_alloc = 0 ∧ next_alloc ≠ 0 then
    let st1 := remove_block st (PREV_BLKP m bp) prev_size
    let size1 := size + prev_size
    let m1 := PUT st1.mem (FTRP st1.mem bp) (PACK size1 0)
    let m2 := PUT m1 (HDRP (PREV_BLKP m1 bp)) (PACK size1 0)
    let bp1 := PREV_BLKP m2 bp
    removeWriteCells st (PREV_BLKP m bp) ++
      [FTRP st1.mem bp, HDRP (PREV_BLKP m1 bp)] ++
      prependWriteCells { st1 with mem := m2 } bp1 size1
  else
    let st1 := remove_block st (PREV_BLKP m bp) prev_size
    let st2 := remove_block st1 (NEXT_BLKP st1.mem bp) next_size
    let size1 := size + prev_size + next_size
    let m1 := PUT st2.mem (HDRP (PREV_BLKP st2.mem bp)) (PACK size1 0)
    let m2 := PUT m1 (FTRP m1 (NEXT_BLKP m1 bp)) (PACK size1 0)
    let bp1 := PREV_BLKP m2 bp
    removeWriteCells st (PREV_BLKP m bp) ++
      removeWriteCells st1 (NEXT_BLKP st1.mem bp) ++
      [HDRP (PREV_BLKP st2.mem bp), FTRP m1 (NEXT_BLKP m1 bp)] ++
      prependWriteCells { st2 with mem := m2 } bp1 size1

/-- The cells written by `mm_free`: nothing on an already-free block, else
the freeing boundary tags followed by the coalesce footprint. -/
def freeWriteCells (st : AState) (bp : Nat) : List Nat :=
  if GET_ALLOC st.mem (HDRP bp) = 0 then []
  else
    let size := GET_SIZE st.mem (HDRP bp)
    let m := PUT_HDR_FTR st.mem bp size 0
    [HDRP bp, FTRP (PUT st.mem (HDRP bp) (PACK size 0)) bp] ++
      coalesceWriteCells { st with mem := m } bp

/-- The cells written by `place`: the unlink cells of the chosen block, the
allocated tags, and — on a split — the remainder's tags and its free-list
link cells. -/
def placeWriteCells (st : AState) (bp size : Nat) : List Nat :=
  let curr_size := GET_SIZE st.mem (HDRP bp)
  let leftover := curr_size - size
  let st1 := remove_block st bp curr_size
  if LIST_OVERHEAD + DSIZE ≤ leftover then
    let m1 := PUT_HDR_FTR st1.mem bp size 1
    let m2 := PUT_HDR_FTR m1 (NEXT_BLKP m1 bp) leftover 0
    removeWriteCells st bp ++
      [HDRP bp, FTRP (PUT st1.mem (HDRP bp) (PACK size 1)) bp] ++
      [HDRP (NEXT_BLKP m1 bp),
        FTRP (PUT m1 (HDRP (NEXT_BLKP m1 bp)) (PACK leftover 0))
          (NEXT_BLKP m1 bp)] ++
      prependWriteCells { st1 with mem := m2 } (NEXT_BLKP m2 bp) leftover
  else
    removeWriteCells st bp ++
      [HDRP bp, FTRP (PUT st1.mem (HDRP bp) (PACK curr_size 1)) bp]

/-- `memmove` writes only the destination range. -/
theorem memmove_frame (m : Mem) (dst src n q : Nat) (h : q < dst ∨ dst + n ≤ q) :
    memmove m dst src n q = m q := by
  unfold memmove
  rw [if_neg (by omega)]

/-- `PUT_HDR_FTR` writes exactly its header cell and the footer cell computed
from the freshly written header. -/
theorem PUT_HDR_FTR_frame_gen (m : Mem) (bp s a q : Nat)
    (hq1 : q ≠ HDRP bp)
    (hq2 : q ≠ FTRP (PUT m (HDRP bp) (PACK s a)) bp) :
    PUT_HDR_FTR m bp s a q = m q := by
  unfold PUT_HDR_FTR
  rw [PUT_read_other _ _ _ _ hq2, PUT_read_other _ _ _ _ hq1]

/-- `coalesce` leaves every cell outside its write footprint unchanged. -/
theorem coalesce_frame (st : AState) (bp q : Nat)
    (h : q ∉ coalesceWriteCells st bp) :
    ((coalesce st bp).2).mem q = st.mem q := by
  unfold coalesceWriteCells at h
  unfold coalesce
  dsimp only at h ⊢
  split_ifs at h ⊢ with h1 h2 h3
  · exact prepend_block_frame _ _ _ _ h
  · simp only [List.mem_append, List.mem_cons, List.not_mem_nil, or_false,
      not_or] at h
    obtain ⟨⟨hA, hB⟩, hc1, hc2⟩ := h
    dsimp only
    rw [PUT_HDR_FTR_frame_gen _ _ _ _ _ hc1 hc2]
    rw [prepend_block_frame _ _ _ _ hB]
    exact remove_block_frame _ _ _ _ hA
  · simp only [List.mem_append, List.mem_cons, List.not_mem_nil, or_false,
      not_or] at h
    obtain ⟨⟨hA, hc1, hc2⟩, hB⟩ := h
    dsimp only
    rw [prepend_block_frame _ _ _ _ hB]
    dsimp only
    rw [PUT_read_other _ _ _ _ hc2, PUT_read_other _ _ _ _ hc1]
    exact remove_block_frame _ _ _ _ hA
  · simp only [List.mem_append, List.mem_cons, List.not_mem_nil, or_false,
      not_or] at h
    obtain ⟨⟨⟨hA, hB⟩, hc1, hc2⟩, hP⟩ := h
    dsimp only
    rw [prepend_block_frame _ _ _ _ hP]
    dsimp only
    rw [PUT_read_other _ _ _ _ hc2, PUT_read_other _ _ _ _ hc1]
    rw [remove_block_frame _ _ _ _ hB]
    exact remove_block_frame _ _ _ _ hA

/-- `mm_free` leaves every cell outside its write footprint unchanged. -/
theorem mm_free_frame (st : AState) (bp q : Nat)
    (h : q ∉ freeWriteCells st bp) :
    (mm_free st bp).mem q = st.mem q := by
  unfold freeWriteCells at h
  unfold mm_free
  dsimp only at h ⊢
  split_ifs at h ⊢ with h1
  · rfl
  · simp only [List.mem_append, List.mem_cons, List.not_mem_nil, or_false,
      not_or] at h
    obtain ⟨⟨hc1, hc2⟩, hC⟩ := h
    rw [coalesce_frame _ _ _ hC]
    dsimp only
    rw [PUT_HDR_FTR_frame_gen _ _ _ _ _ hc1 hc2]

/-- `place` leaves every cell outside its write footprint unchanged. -/
theorem place_frame (st : AState) (bp size q : Nat)
    (h : q ∉ placeWriteCells st bp size) :
    (place st bp size).mem q = st.mem q := by
  unfold placeWriteCells at h
  unfold place
  dsimp only at h ⊢
  split_ifs at h ⊢ with h1
  · simp only [List.mem_append, List.mem_cons, List.not_mem_nil, or_false,
      not_or] at h
    obtain ⟨⟨⟨hA, hc1, hc2⟩, hd1, hd2⟩, hP⟩ := h
    rw [prepend_block_frame _ _ _ _ hP]
    dsimp only
    rw [PUT_HDR_FTR_frame_gen _ _ _ _ _ hd1 hd2]
    rw [PUT_HDR_FTR_frame_gen _ _ _ _ _ hc1 hc2]
    exact remove_block_frame _ _ _ _ hA
  · simp only [List.mem_append, List.mem_cons, List.not_mem_nil, or_false,
      not_or] at h
    obtain ⟨hA, hc1, hc2⟩ := h
    show PUT_HDR_FTR (remove_block st bp (GET_SIZE st.mem (HDRP bp))).mem bp
      (GET_SIZE st.mem (HDRP bp)) 1 q = st.mem q
    rw [PUT_HDR_FTR_frame_gen _ _ _ _ _ hc1 hc2]
    exact remove_block_frame _ _ _ _ hA

/-- Write-footprint characterisation of the allocator's memory writers:
`place`, `coalesce`, `mm_free`, `remove_block`, `prepend_block` leave every
cell outside their explicit footprints — boundary-tag cells, free-list link
cells and bin heads — untouched, and the copies of `mm_realloc`
(`memmove`/`memcpy`) write only the destination range. -/
theorem writer_frames :
    (∀ st bp size q, q ∉ placeWriteCells st bp size →
      (place st bp size).mem q = st.mem q) ∧
    (∀ st bp q, q ∉ coalesceWriteCells st bp →
      ((coalesce st bp).2).mem q = st.mem q) ∧
    (∀ st bp q, q ∉ freeWriteCells st bp →
      (mm_free st bp).mem q = st.mem q) ∧
    (∀ st bp size q, q ∉ removeWriteCells st bp →
      (remove_block st bp size).mem q = st.mem q) ∧
    (∀ st bp size q, q ∉ prependWriteCells st bp size →
      (prepend_block st bp size).mem q = st.mem q) ∧
    (∀ m dst src n q, q < dst ∨ dst + n ≤ q → memmove m dst src n q = m q) :=
  ⟨place_frame, coalesce_frame, mm_free_frame, remove_block_frame,
    prepend_block_frame, memmove_frame⟩

/-- The six frame facts instantiated on concrete heaps at the foreign cell
500, which lies in none of the computed footprints. -/
theorem writer_frames_inst :
    (500 ∉ placeWriteCells wstC6 1000 16 ∧
      (place wstC6 1000 16).mem 500 = wstC6.mem 500) ∧
    (500 ∉ coalesceWriteCells wstC6 1016 ∧
      ((coalesce wstC6 1016).2).mem 500 = wstC6.mem 500) ∧
    (500 ∉ freeWriteCells wstC5r 1016 ∧
      (mm_free wstC5r 1016).mem 500 = wstC5r.mem 500) ∧
    (500 ∉ removeWriteCells wstC6 1000 ∧
      (remove_block wstC6 1000 16).mem 500 = wstC6.mem 500) ∧
    (500 ∉ prependWriteCells wstC6 2000 24 ∧
      (prepend_block wstC6 2000 24).mem 500 = wstC6.mem 500) ∧
    (50 < 100 ∧ memmove wmemC6 100 200 4 50 = wmemC6 50) :=
  ⟨⟨by decide, writer_frames.1 wstC6 1000 16 500 (by decide)⟩,
    ⟨by decide, writer_frames.2.1 wstC6 1016 500 (by decide)⟩,
    ⟨by decide, writer_frames.2.2.1 wstC5r 1016 500 (by decide)⟩,
    ⟨by decide, writer_frames.2.2.2.1 wstC6 1000 16 500 (by decide)⟩,
    ⟨by decide, writer_frames.2.2.2.2.1 wstC6 2000 24 500 (by decide)⟩,
    ⟨by decide, writer_frames.2.2.2.2.2 wmemC6 100 200 4 50 (Or.inl (by decide))⟩⟩

/-- Absorb-both path of `mm_realloc': no split happens; the block returned at
the previous neighbor's address carries the full merged size
`old + size(prev) + size(next)`. -/
theorem realloc_absorb_both_size (st : AState) (fuel bp n s ps ns : Nat)
    (hbp : bp ≠ 0) (hn : n ≠ 0)
    (hs : GET_SIZE st.mem (HDRP bp) = s)
    (hpfs : GET_SIZE st.mem (bp - DSIZE) = ps)
    (hph : GET_SIZE st.mem (HDRP (bp - ps)) = ps)
    (hns : GET_SIZE st.mem (HDRP (NEXT_BLKP st.mem bp)) = ns)
    (hs16 : 16 ≤ s) (hps16 : 16 ≤ ps) (hbpps : ps + 8 ≤ bp)
    (hgrow : s < adjRealloc n) (hfit3 : adjRealloc n ≤ s + ps + ns)
    (hna : GET_ALLOC st.mem (HDRP (NEXT_BLKP st.mem bp)) = 0)
    (hpa : GET_ALLOC st.mem (HDRP (bp - ps)) = 0)
    (hrm0 : HDRP bp ∉ removeWriteCells st (bp - ps))
    (hrm1a : bp - DSIZE ∉ removeWriteCells st (bp - ps))
    (hrm1b : bp - DSIZE ∉
      removeWriteCells (remove_block st (bp - ps) ps) (NEXT_BLKP st.mem bp))
    (hszM : s + ps + ns + 1 < M32) :
    (mm_realloc st fuel bp n).1 = some (bp - ps) ∧
      GET_SIZE ((mm_realloc st fuel bp n).2).mem (HDRP (bp - ps)) =
        s + ps + ns := by
  have hdvd1 := GET_SIZE_dvd st.mem (HDRP bp)
  have hdvd2 := GET_SIZE_dvd st.mem (HDRP (bp - ps))
  have hdvd3 := GET_SIZE_dvd st.mem (HDRP (NEXT_BLKP st.mem bp))
  rw [hs] at hdvd1
  rw [hph] at hdvd2
  rw [hns] at hdvd3
  have hP : PREV_BLKP st.mem bp = bp - ps := by
    unfold PREV_BLKP
    rw [hpfs]
  have e0 : (remove_block st (bp - ps) ps).mem (HDRP bp) = st.mem (HDRP bp) :=
    remove_block_frame _ _ _ _ hrm0
  have eN : NEXT_BLKP (remove_block st (bp - ps) ps).mem bp =
      NEXT_BLKP st.mem bp := NEXT_BLKP_congr bp e0
  have e1a : (remove_block st (bp - ps) ps).mem (bp - DSIZE) =
      st.mem (bp - DSIZE) := remove_block_frame _ _ _ _ hrm1a
  have e1b : (remove_block (remove_block st (bp - ps) ps)
      (NEXT_BLKP st.mem bp) ns).mem (bp - DSIZE) =
      (remove_block st (bp - ps) ps).mem (bp - DSIZE) :=
    remove_block_frame _ _ _ _ hrm1b
  have eP : PREV_BLKP (remove_block (remove_block st (bp - ps) ps)
      (NEXT_BLKP st.mem bp) ns).mem bp = bp - ps := by
    rw [PREV_BLKP_congr bp (e1b.trans e1a)]
    exact hP
  unfold mm_realloc
  simp only [if_neg hbp, if_neg hn, hP, hph, hpa, hna, hs, hns,
    eq_self_iff_true, ne_eq, not_true, false_and, and_false, if_false,
    true_and, ite_false]
  split_ifs with h1 h2
  · exact absurd h1 (by omega)
  · exact absurd h2 (by omega)
  · rw [eN, eP]
    refine ⟨rfl, ?_⟩
    show GET_SIZE (memmove (PUT_HDR_FTR
        (remove_block (remove_block st (bp - ps) ps)
          (NEXT_BLKP st.mem bp) ns).mem
        (bp - ps) (s + ps + ns) 1) (bp - ps) bp s) (HDRP (bp - ps)) =
      s + ps + ns
    have hhd : memmove (PUT_HDR_FTR
        (remove_block (remove_block st (bp - ps) ps)
          (NEXT_BLKP st.mem bp) ns).mem
        (bp - ps) (s + ps + ns) 1) (bp - ps) bp s (HDRP (bp - ps)) =
        PUT_HDR_FTR (remove_block (remove_block st (bp - ps) ps)
          (NEXT_BLKP st.mem bp) ns).mem (bp - ps) (s + ps + ns) 1
          (HDRP (bp - ps)) := by
      unfold memmove
      rw [if_neg (by unfold HDRP WSIZE; omega)]
    rw [GET_SIZE_congr _ hhd]
    exact GET_SIZE_PUT_HDR_FTR _ _ _ 1 (Nat.dvd_add (Nat.dvd_add hdvd1 hdvd2) hdvd3)
      (by omega) (by omega) (by omega) hszM

/-- Relocate path of `mm_realloc': no split happens on the found block
either; it keeps its full size as read before the call, however much it
exceeds the adjusted request. -/
theorem realloc_reloc_size (st : AState) (fuel bp n nb : Nat)
    (hbp : bp ≠ 0) (hn : n ≠ 0) (hbp8 : 8 ≤ bp) (hnb8 : 8 ≤ nb)
    (hold16 : 16 ≤ GET_SIZE st.mem (HDRP bp))
    (hgrow : GET_SIZE st.mem (HDRP bp) < adjRealloc n)
    (hpa : GET_ALLOC st.mem (HDRP (PREV_BLKP st.mem bp)) ≠ 0)
    (hna : GET_ALLOC st.mem (HDRP (NEXT_BLKP st.mem bp)) ≠ 0)
    (hfit : find_fit st fuel (adjRealloc n) = some nb)
    (hw16 : 16 ≤ GET_SIZE st.mem (HDRP nb))
    (hwM : GET_SIZE st.mem (HDRP nb) + 1 < M32)
    (hsM : GET_SIZE st.mem (HDRP bp) < M32)
    (hnbbp : nb ≠ bp)
    (hd2 : HDRP nb ≠ bp + GET_SIZE st.mem (HDRP bp) - DSIZE)
    (hrmh : HDRP nb ∉ removeWriteCells { st with mem := relocM1 st nb } nb)
    (hpa3 : GET_ALLOC (relocM3 st bp nb)
      (FTRP (relocM3 st bp nb) (PREV_BLKP (relocM3 st bp nb) bp)) ≠ 0)
    (hna3 : GET_ALLOC (relocM3 st bp nb)
      (HDRP (NEXT_BLKP (relocM3 st bp nb) bp)) ≠ 0)
    (hpreh : HDRP nb ∉ prependWriteCells (relocPre st bp nb) bp
      (GET_SIZE (relocM3 st bp nb) (HDRP bp))) :
    (mm_realloc st fuel bp n).1 = some nb ∧
      GET_SIZE ((mm_realloc st fuel bp n).2).mem (HDRP nb) =
        GET_SIZE st.mem (HDRP nb) := by
  have hdvds := GET_SIZE_dvd st.mem (HDRP bp)
  have hdvdw := GET_SIZE_dvd st.mem (HDRP nb)
  have hne : ¬ (adjRealloc n = GET_SIZE st.mem (HDRP bp)) := by omega
  have hnl : ¬ (adjRealloc n < GET_SIZE st.mem (HDRP bp)) := by omega
  have hfin : GET_SIZE ((coalesce (relocPre st bp nb) bp).2).mem (HDRP nb) =
      GET_SIZE st.mem (HDRP nb) := by
    unfold coalesce relocPre
    dsimp only
    rw [if_pos ⟨hpa3, hna3⟩]
    dsimp only
    rw [GET_SIZE_congr (HDRP nb) (prepend_block_frame _ _ _ _
      (show HDRP nb ∉ prependWriteCells
        { mem := relocM3 st bp nb, heap_lo := (relocStB st nb).heap_lo,
          bin_hi := (relocStB st nb).bin_hi,
          block_lo := (relocStB st nb).block_lo,
          largest_free := (relocStB st nb).largest_free,
          brk := (relocStB st nb).brk, cap := (relocStB st nb).cap }
        bp (GET_SIZE (relocM3 st bp nb) (HDRP bp)) from hpreh))]
    show GET_SIZE (relocM3 st bp nb) (HDRP nb) = GET_SIZE st.mem (HDRP nb)
    have e3 : relocM3 st bp nb (HDRP nb) = relocM2 st bp nb (HDRP nb) := by
      unfold relocM3
      exact memmove_frame _ _ _ _ _ (Or.inl (by unfold HDRP WSIZE; omega))
    rw [GET_SIZE_congr _ e3]
    have e2 : relocM2 st bp nb (HDRP nb) = (relocStB st nb).mem (HDRP nb) := by
      unfold relocM2
      exact PUT_HDR_FTR_frame _ _ _ _ _ hdvds (by omega) (by omega)
        (by unfold HDRP WSIZE; omega) hd2
    rw [GET_SIZE_congr _ e2]
    have e1 : (relocStB st nb).mem (HDRP nb) = relocM1 st nb (HDRP nb) := by
      unfold relocStB
      exact remove_block_frame _ _ _ _ hrmh
    rw [GET_SIZE_congr _ e1]
    unfold relocM1
    exact GET_SIZE_PUT_HDR_FTR _ _ _ _ hdvdw hw16 hnb8 (by omega) hwM
  unfold mm_realloc
  simp only [if_neg hbp, if_neg hn, if_neg hne, if_neg hnl, hfit]
  split_ifs with h1 h2 h3
  · exact absurd h1.1 hna
  · exact absurd h2.2.1 hpa
  · exact absurd h3.1 hna
  · exact ⟨rfl, hfin⟩

/-- Concrete heap exercising the absorb-both growth path: free 16-byte
blocks at 1000 and 1040 (both on bin 0, linked 1000 -> 1040), around the
allocated 24-byte block at 1016. -/
def wmemC4b : Mem := fun q =>
  if q = 0 then 1000
  else if q = 1000 then 1040 else if q = 1044 then 1000
  else if q = 996 then 16 else if q = 1008 then 16
  else if q = 1012 then 25 else if q = 1032 then 25
  else if q = 1036 then 16 else if q = 1048 then 16 else 0

def wstC4b : AState :=
  { mem := wmemC4b, heap_lo := 0, bin_hi := 28, block_lo := 36,
    largest_free := 0, brk := 2100, cap := 100000 }

/-- C4 amended: no growth path of resize ever splits off a tail, however
large the slack.  On the absorb-next path the block holding the payload ends
with size exactly `old + size(next)`; on the absorb-prev path with
`old + size(prev)`; on the absorb-both path with
`old + size(prev) + size(next)`; and on the relocate path the found block
keeps its full size as read before the call.  In each conjunct the
membership hypotheses say that the unlink and link writes do not land on the
headers involved (true in any well-formed heap, where link words live inside
free payloads), and the branch-selection hypotheses pin the path taken. -/
theorem C4_amended :
    (∀ st fuel bp n, bp ≠ 0 → n ≠ 0 → 8 ≤ bp →
      16 ≤ GET_SIZE st.mem (HDRP bp) →
      GET_SIZE st.mem (HDRP bp) < adjRealloc n →
      GET_ALLOC st.mem (HDRP (NEXT_BLKP st.mem bp)) = 0 →
      GET_ALLOC st.mem (HDRP (PREV_BLKP st.mem bp)) ≠ 0 →
      adjRealloc n ≤ GET_SIZE st.mem (HDRP bp) +
        GET_SIZE st.mem (HDRP (NEXT_BLKP st.mem bp)) →
      HDRP bp ∉ removeWriteCells st (NEXT_BLKP st.mem bp) →
      HDRP (NEXT_BLKP st.mem bp) ∉ removeWriteCells st (NEXT_BLKP st.mem bp) →
      (∀ i, i < GET_SIZE st.mem (HDRP bp) - DSIZE →
        bp + i ∉ removeWriteCells st (NEXT_BLKP st.mem bp)) →
      GET_SIZE st.mem (HDRP bp) +
        GET_SIZE st.mem (HDRP (NEXT_BLKP st.mem bp)) + 1 < M32 →
      (mm_realloc st fuel bp n).1 = some bp ∧
        GET_SIZE ((mm_realloc st fuel bp n).2).mem (HDRP bp) =
          GET_SIZE st.mem (HDRP bp) +
            GET_SIZE st.mem (HDRP (NEXT_BLKP st.mem bp))) ∧
    (∀ st fuel bp n s ps, bp ≠ 0 → n ≠ 0 →
      GET_SIZE st.mem (HDRP bp) = s →
      GET_SIZE st.mem (bp - DSIZE) = ps →
      GET_SIZE st.mem (HDRP (bp - ps)) = ps →
      16 ≤ s → 16 ≤ ps → ps + 8 ≤ bp →
      s < adjRealloc n → adjRealloc n ≤ s + ps →
      GET_ALLOC st.mem (HDRP (NEXT_BLKP st.mem bp)) ≠ 0 →
      GET_ALLOC st.mem (HDRP (bp - ps)) = 0 →
      bp - DSIZE ∉ removeWriteCells st (bp - ps) →
      HDRP (bp - ps) ∉ removeWriteCells st (bp - ps) →
      (∀ i, i < s - DSIZE → bp + i ∉ removeWriteCells st (bp - ps)) →
      s + ps + 1 < M32 →
      (mm_realloc st fuel bp n).1 = some (bp - ps) ∧
        GET_SIZE ((mm_realloc st fuel bp n).2).mem (HDRP (bp - ps)) = s + ps) ∧
    (∀ st fuel bp n s ps ns, bp ≠ 0 → n ≠ 0 →
      GET_SIZE st.mem (HDRP bp) = s →
      GET_SIZE st.mem (bp - DSIZE) = ps →
      GET_SIZE st.mem (HDRP (bp - ps)) = ps →
      GET_SIZE st.mem (HDRP (NEXT_BLKP st.mem bp)) = ns →
      16 ≤ s → 16 ≤ ps → ps + 8 ≤ bp →
      s < adjRealloc n → adjRealloc n ≤ s + ps + ns →
      GET_ALLOC st.mem (HDRP (NEXT_BLKP st.mem bp)) = 0 →
      GET_ALLOC st.mem (HDRP (bp - ps)) = 0 →
      HDRP bp ∉ removeWriteCells st (bp - ps) →
      bp - DSIZE ∉ removeWriteCells st (bp - ps) →
      bp - DSIZE ∉
        removeWriteCells (remove_block st (bp - ps) ps) (NEXT_BLKP st.mem bp) →
      s + ps + ns + 1 < M32 →
      (mm_realloc st fuel bp n).1 = some (bp - ps) ∧
        GET_SIZE ((mm_realloc st fuel bp n).2).mem (HDRP (bp - ps)) =
          s + ps + ns) ∧
    (∀ st fuel bp n nb, bp ≠ 0 → n ≠ 0 → 8 ≤ bp → 8 ≤ nb →
      16 ≤ GET_SIZE st.mem (HDRP bp) →
      GET_SIZE st.mem (HDRP bp) < adjRealloc n →
      GET_ALLOC st.mem (HDRP (PREV_BLKP st.mem bp)) ≠ 0 →
      GET_ALLOC st.mem (HDRP (NEXT_BLKP st.mem bp)) ≠ 0 →
      find_fit st fuel (adjRealloc n) = some nb →
      16 ≤ GET_SIZE st.mem (HDRP nb) →
      GET_SIZE st.mem (HDRP nb) + 1 < M32 →
      GET_SIZE st.mem (HDRP bp) < M32 →
      nb ≠ bp →
      HDRP nb ≠ bp + GET_SIZE st.mem (HDRP bp) - DSIZE →
      HDRP nb ∉ removeWriteCells { st with mem := relocM1 st nb } nb →
      GET_ALLOC (relocM3 st bp nb)
        (FTRP (relocM3 st bp nb) (PREV_BLKP (relocM3 st bp nb) bp)) ≠ 0 →
      GET_ALLOC (relocM3 st bp nb)
        (HDRP (NEXT_BLKP (relocM3 st bp nb) bp)) ≠ 0 →
      HDRP nb ∉ prependWriteCells (relocPre st bp nb) bp
        (GET_SIZE (relocM3 st bp nb) (HDRP bp)) →
      (mm_realloc st fuel bp n).1 = some nb ∧
        GET_SIZE ((mm_realloc st fuel bp n).2).mem (HDRP nb) =
          GET_SIZE st.mem (HDRP nb)) := by
  refine ⟨?_, ?_, ?_, realloc_reloc_size⟩
  · intro st fuel bp n hbp hn hbp8 hold16 hgrow hnf hpva hfit hf1 hf2 hfp hsz
    have h := realloc_absorb_next_payload st fuel bp n hbp hn hbp8 hold16
      hgrow hnf hpva hfit hf1 hf2 hfp hsz
    exact ⟨h.1, h.2.1⟩
  · intro st fuel bp n s ps hbp hn hs hpfs hph hs16 hps16 hbpps hgrow hfit
      hna hpa hrm1 hrm2 hrmp hszM
    have h := realloc_absorb_prev_payload st fuel bp n s ps hbp hn hs hpfs
      hph hs16 hps16 hbpps hgrow hfit hna hpa hrm1 hrm2 hrmp hszM
    exact ⟨h.1, h.2.1⟩
  · exact realloc_absorb_both_size

/-- C4 witness: the four growth paths exercised concretely — absorb-next on
`stM32` (request 60 absorbs the 4056-byte neighbor whole), absorb-prev on
`wstC5p`, absorb-both on `wstC4b`, and relocate on `wstC5r` (the found
48-byte block keeps its size for the 40-byte adjusted request). -/
theorem C4_witness :
    ((mm_realloc stM32 64 56 60).1 = some 56 ∧
      GET_SIZE ((mm_realloc stM32 64 56 60).2).mem (HDRP 56) =
        GET_SIZE stM32.mem (HDRP 56) +
          GET_SIZE stM32.mem (HDRP (NEXT_BLKP stM32.mem 56))) ∧
    ((mm_realloc wstC5p 64 1016 20).1 = some (1016 - 16) ∧
      GET_SIZE ((mm_realloc wstC5p 64 1016 20).2).mem (HDRP (1016 - 16)) =
        24 + 16) ∧
    ((mm_realloc wstC4b 64 1016 40).1 = some (1016 - 16) ∧
      GET_SIZE ((mm_realloc wstC4b 64 1016 40).2).mem (HDRP (1016 - 16)) =
        24 + 16 + 16) ∧
    ((mm_realloc wstC5r 64 1016 25).1 = some 2000 ∧
      GET_SIZE ((mm_realloc wstC5r 64 1016 25).2).mem (HDRP 2000) =
        GET_SIZE wstC5r.mem (HDRP 2000)) :=
  ⟨C4_amended.1 stM32 64 56 60 (by decide) (by decide) (by decide) (by decide)
      (by decide) (by decide) (by decide) (by decide) (by decide) (by decide)
      (by decide) (by decide),
    C4_amended.2.1 wstC5p 64 1016 20 24 16 (by decide) (by decide) (by decide)
      (by decide) (by decide) (by decide) (by decide) (by decide) (by decide)
      (by decide) (by decide) (by decide) (by decide) (by decide) (by decide)
      (by decide),
    C4_amended.2.2.1 wstC4b 64 1016 40 24 16 16 (by decide) (by decide)
      (by decide) (by decide) (by decide) (by decide) (by decide) (by decide)
      (by decide) (by decide) (by decide) (by decide) (by decide) (by decide)
      (by decide) (by decide) (by decide),
    C4_amended.2.2.2 wstC5r 64 1016 25 2000 (by decide) (by decide)
      (by decide) (by decide) (by decide) (by decide) (by decide) (by decide)
      (by decide) (by decide) (by decide) (by decide) (by decide) (by decide)
      (by decide) (by decide) (by decide) (by decide)⟩

end MM
